import Mathlib

/-!
Verification of the motioneffector parser: a shallow embedding, in Lean 4, of
the text-adventure command parser (tokenizer, vocabulary matcher, command
dispatcher, noun-phrase resolver and pronoun tracker), translated from the
bundled implementation shipped with the repository (`dist/index.js`, whose
functions `F` = tokenize, `D` = createParser, `d` = findVerb, `T` =
findDirection, `S` = parseEntity, `$` = parse, `H` = buildVocabulary carry the
minified names).  The TypeScript sources under `src/` lag this bundle: the
bundle adds the input-length guard, the resolver try/catch and the
deep-frozen default vocabulary that the test-suite exercises, so the bundle is
embedded here.

Modelling conventions:
  - strings are Lean `String`, positions are character offsets (`Nat`); the
    JavaScript UTF-16 unit count and the character count agree on the inputs
    below;
  - JavaScript truthiness of strings (empty string is falsy) is modelled
    explicitly where the source relies on it (`strTruthy`);
  - the external resolver is a total function into `ResolverOutcome`, whose
    constructors stand for: the callback threw, it returned a non-array value,
    or it returned an array of entities — this models the bundle's
    try/catch plus `Array.isArray` check;
  - the `room` identity on a scope is three-valued (`null`, missing key, a
    caller value), because the source compares it with strict inequality
    against a field initialised to `null`;
  - the tokenizer's while-loop is embedded with a fuel argument; fuel
    `length + 1` is shown sufficient (`tokenizeAux_fuel_irrelevant`).
-/

set_option maxRecDepth 16384

namespace MEParser

/-- Character class of the JavaScript whitespace regex used by the tokenizer. -/
def isWhitespaceChar (c : Char) : Bool :=
  c == ' ' || c == Char.ofNat 9 || c == Char.ofNat 10 || c == Char.ofNat 11 ||
  c == Char.ofNat 12 || c == Char.ofNat 13 || c == Char.ofNat 160 ||
  c == Char.ofNat 0x1680 ||
  (decide (0x2000 ≤ c.toNat) && decide (c.toNat ≤ 0x200a)) ||
  c == Char.ofNat 0x2028 || c == Char.ofNat 0x2029 || c == Char.ofNat 0x202f ||
  c == Char.ofNat 0x205f || c == Char.ofNat 0x3000 || c == Char.ofNat 0xfeff

/-- Character class `[a-zA-Z0-9_\u0080-￿]` of the tokenizer. -/
def isWordChar (c : Char) : Bool :=
  (decide ('a' ≤ c) && decide (c ≤ 'z')) ||
  (decide ('A' ≤ c) && decide (c ≤ 'Z')) ||
  (decide ('0' ≤ c) && decide (c ≤ '9')) ||
  c == '_' ||
  (decide (0x80 ≤ c.toNat) && decide (c.toNat ≤ 0xffff))

/-- Character class `[.,!?;:]` of trailing sentence punctuation. -/
def isPunctChar (c : Char) : Bool :=
  c == '.' || c == ',' || c == '!' || c == '?' || c == ';' || c == ':'

/-- ASCII lowering of one character.  The source lowercases with JavaScript
`toLowerCase`, which agrees with this on ASCII; non-ASCII case mapping is not
modelled (no vocabulary word and no input below uses it). -/
def charLower (c : Char) : Char :=
  if 'A' ≤ c ∧ c ≤ 'Z' then Char.ofNat (c.toNat + 32) else c

def lowerString (l : List Char) : String := String.mk (l.map charLower)

/-- `s` starts with `pre` (JavaScript `s.startsWith(pre)`), as a list prefix
test on the characters. -/
def strStartsWith (s pre : String) : Bool := pre.data.isPrefixOf s.data

def dquoteChar : Char := Char.ofNat 34

def squoteChar : Char := Char.ofNat 39

def backslashChar : Char := Char.ofNat 92

inductive TokenType where
  | word
  | quotedString
deriving DecidableEq, Repr

/-- A positioned token; `stop` is the exclusive end offset (`end` in the source,
renamed because `end` is a Lean keyword). -/
structure Token where
  type : TokenType
  value : String
  original : String
  start : Nat
  stop : Nat
deriving DecidableEq, Repr

/-- Scan of a quoted string after its opening quote, returning the collected
value characters, the number of input characters consumed and whether the
closing quote was found.  Mirrors the inner while-loop of the tokenizer:
backslash escapes the quote character and backslash itself, any other
backslash is copied literally. -/
def scanQuoted (q : Char) : List Char → List Char × Nat × Bool
  | [] => ([], 0, false)
  | c :: rest =>
    if c = backslashChar then
      match rest with
      | [] => ([c], 1, false)
      | c2 :: rest2 =>
        if c2 = q ∨ c2 = backslashChar then
          let r := scanQuoted q rest2
          (c2 :: r.1, r.2.1 + 2, r.2.2)
        else
          let r := scanQuoted q (c2 :: rest2)
          (c :: r.1, r.2.1 + 1, r.2.2)
    else if c = q then ([], 1, true)
    else
      let r := scanQuoted q rest
      (c :: r.1, r.2.1 + 1, r.2.2)

/-- Strip trailing sentence punctuation, one character at a time (the
source's stripping loop; provably inert because word characters exclude the
punctuation class, but kept for faithfulness). -/
def stripTrailingPunct (l : List Char) : List Char :=
  ((l.reverse.dropWhile isPunctChar)).reverse

/-- One pass of the tokenizer loop, with fuel.  `l` is the unread suffix of the
input and `pos` the character offset of its head. -/
def tokenizeAux : Nat → List Char → Nat → List Token
  | 0, _, _ => []
  | _ + 1, [], _ => []
  | fuel + 1, c :: rest, pos =>
    if isWhitespaceChar c then
      tokenizeAux fuel rest (pos + 1)
    else if c = dquoteChar ∨ c = squoteChar then
      let r := scanQuoted c rest
      if r.2.2 then
        { type := .quotedString, value := String.mk r.1,
          original := String.mk (c :: rest.take r.2.1),
          start := pos, stop := pos + 1 + r.2.1 }
          :: tokenizeAux fuel (rest.drop r.2.1) (pos + 1 + r.2.1)
      else
        [{ type := .quotedString, value := String.mk rest,
           original := String.mk (c :: rest),
           start := pos, stop := pos + 1 + rest.length }]
    else if isWordChar c then
      let wordChars := c :: rest.takeWhile isWordChar
      let afterWord := rest.dropWhile isWordChar
      let punctCount := (afterWord.takeWhile isPunctChar).length
      { type := .word, value := lowerString (stripTrailingPunct wordChars),
        original := String.mk wordChars,
        start := pos, stop := pos + wordChars.length }
        :: tokenizeAux fuel (afterWord.drop punctCount) (pos + wordChars.length + punctCount)
    else
      tokenizeAux fuel rest (pos + 1)

/-- Tokenizes an input string (source function `tokenize` / bundled `F`). -/
def tokenize (input : String) : List Token :=
  tokenizeAux (input.data.length + 1) input.data 0

lemma length_dropWhile_le {α : Type} (p : α → Bool) (l : List α) :
    (l.dropWhile p).length ≤ l.length := by
  induction l with
  | nil => simp [List.dropWhile]
  | cons a t ih =>
    by_cases h : p a
    · simp only [List.dropWhile, h]
      exact Nat.le_succ_of_le ih
    · simp [List.dropWhile, h]

/-- Fuel above the input length never runs out: the amount of extra fuel does
not change the token list.  This certifies that `tokenize`, which supplies
fuel `length + 1`, computes the same list as the unbounded source loop. -/
lemma tokenizeAux_fuel_irrelevant :
    ∀ f1 f2 l (pos : Nat), l.length < f1 → l.length < f2 →
      tokenizeAux f1 l pos = tokenizeAux f2 l pos := by
  intro f1
  induction f1 with
  | zero => intro f2 l pos h1 _; omega
  | succ f1 ih =>
    intro f2 l pos h1 h2
    match f2 with
    | 0 => omega
    | f2 + 1 =>
      match l with
      | [] => rfl
      | c :: rest =>
        have hr : rest.length < f1 := by
          have : (c :: rest).length = rest.length + 1 := List.length_cons c rest
          omega
        have hr2 : rest.length < f2 := by
          have : (c :: rest).length = rest.length + 1 := List.length_cons c rest
          omega
        have hdrop1 : ∀ n : Nat, (rest.drop n).length < f1 := by
          intro n; have := List.length_drop n rest; omega
        have hdrop2 : ∀ n : Nat, (rest.drop n).length < f2 := by
          intro n; have := List.length_drop n rest; omega
        have hdw1 : ∀ n : Nat, ((rest.dropWhile isWordChar).drop n).length < f1 := by
          intro n
          have h3 := length_dropWhile_le isWordChar rest
          have h4 := List.length_drop n (rest.dropWhile isWordChar)
          omega
        have hdw2 : ∀ n : Nat, ((rest.dropWhile isWordChar).drop n).length < f2 := by
          intro n
          have h3 := length_dropWhile_le isWordChar rest
          have h4 := List.length_drop n (rest.dropWhile isWordChar)
          omega
        simp only [tokenizeAux]
        split_ifs with hw hq hfound hwc
        · exact ih f2 rest (pos + 1) hr hr2
        · exact congrArg _ (ih f2 _ _ (hdrop1 _) (hdrop2 _))
        · rfl
        · exact congrArg _ (ih f2 _ _ (hdw1 _) (hdw2 _))
        · exact ih f2 rest (pos + 1) hr hr2

/-- The argument shape a verb declares. -/
inductive VerbPattern where
  | none
  | subject
  | subject_object
  | direction
  | text
deriving DecidableEq, Repr

structure VerbDefinition where
  canonical : String
  synonyms : List String
  pattern : VerbPattern
deriving DecidableEq, Repr

structure DirectionDefinition where
  canonical : String
  aliases : List String
deriving DecidableEq, Repr

structure Vocabulary where
  verbs : List VerbDefinition
  directions : List DirectionDefinition
  prepositions : List String
  articles : List String
deriving DecidableEq, Repr

/-- The built-in default vocabulary (deep-frozen constant `k` of the bundle). -/
def DEFAULT_VOCABULARY : Vocabulary where
  verbs := [
    ⟨"GO", ["go", "walk", "run"], .direction⟩,
    ⟨"ENTER", ["enter"], .subject⟩,
    ⟨"EXIT", ["exit", "leave"], .none⟩,
    ⟨"CLIMB", ["climb"], .subject⟩,
    ⟨"GET", ["get", "take", "grab", "pick"], .subject⟩,
    ⟨"DROP", ["drop"], .subject⟩,
    ⟨"PUT", ["put"], .subject_object⟩,
    ⟨"GIVE", ["give"], .subject_object⟩,
    ⟨"THROW", ["throw"], .subject_object⟩,
    ⟨"OPEN", ["open"], .subject⟩,
    ⟨"CLOSE", ["close"], .subject⟩,
    ⟨"LOCK", ["lock"], .subject⟩,
    ⟨"UNLOCK", ["unlock"], .subject⟩,
    ⟨"LOOK", ["look", "l"], .none⟩,
    ⟨"EXAMINE", ["examine", "x", "inspect"], .subject⟩,
    ⟨"SEARCH", ["search"], .subject⟩,
    ⟨"READ", ["read"], .subject⟩,
    ⟨"SAY", ["say"], .text⟩,
    ⟨"SHOUT", ["shout"], .text⟩,
    ⟨"TALK", ["talk"], .subject⟩,
    ⟨"ASK", ["ask"], .subject_object⟩,
    ⟨"TELL", ["tell"], .subject_object⟩,
    ⟨"ATTACK", ["attack", "hit", "strike"], .subject⟩,
    ⟨"KILL", ["kill"], .subject⟩,
    ⟨"FIGHT", ["fight"], .subject⟩,
    ⟨"INVENTORY", ["inventory", "i", "inv"], .none⟩,
    ⟨"SCORE", ["score"], .none⟩,
    ⟨"SAVE", ["save"], .none⟩,
    ⟨"LOAD", ["load"], .none⟩,
    ⟨"QUIT", ["quit"], .none⟩,
    ⟨"HELP", ["help"], .none⟩]
  directions := [
    ⟨"NORTH", ["north", "n"]⟩,
    ⟨"SOUTH", ["south", "s"]⟩,
    ⟨"EAST", ["east", "e"]⟩,
    ⟨"WEST", ["west", "w"]⟩,
    ⟨"NORTHEAST", ["northeast", "ne"]⟩,
    ⟨"NORTHWEST", ["northwest", "nw"]⟩,
    ⟨"SOUTHEAST", ["southeast", "se"]⟩,
    ⟨"SOUTHWEST", ["southwest", "sw"]⟩,
    ⟨"UP", ["up", "u"]⟩,
    ⟨"DOWN", ["down", "d"]⟩,
    ⟨"IN", ["in"]⟩,
    ⟨"OUT", ["out"]⟩]
  prepositions := ["with", "to", "at", "in", "on", "from", "into", "onto", "about"]
  articles := ["the", "a", "an"]

/-- Caller-supplied vocabulary options (`options.vocabulary`); `Option` fields
model optional keys. -/
structure VocabularyOptions where
  verbs : Option (List VerbDefinition)
  directions : Option (List DirectionDefinition)
  prepositions : Option (List String)
  articles : Option (List String)
  extend : Option Bool
deriving DecidableEq, Repr

/-- Build a parser instance vocabulary (source `buildVocabulary` / bundled `H`):
the defaults are copied, extended or replaced.  In the bundle every branch
returns fresh arrays and the defaults are deep-frozen, so distinct instances
never share vocabulary storage; values model that directly. -/
def buildVocabulary : Option VocabularyOptions → Vocabulary
  | Option.none => ⟨DEFAULT_VOCABULARY.verbs, DEFAULT_VOCABULARY.directions,
      DEFAULT_VOCABULARY.prepositions, DEFAULT_VOCABULARY.articles⟩
  | some e =>
    if e.extend.getD true then
      ⟨DEFAULT_VOCABULARY.verbs ++ e.verbs.getD [],
       DEFAULT_VOCABULARY.directions ++ e.directions.getD [],
       DEFAULT_VOCABULARY.prepositions ++ e.prepositions.getD [],
       DEFAULT_VOCABULARY.articles ++ e.articles.getD []⟩
    else
      ⟨e.verbs.getD [], e.directions.getD [], e.prepositions.getD [], e.articles.getD []⟩

/-- The `room` value carried by a resolver scope: JavaScript distinguishes
`null` (the initial stored identity), `undefined` (key absent) and a caller
value (modelled opaquely as a string), and the source compares them with
strict inequality. -/
inductive RoomVal where
  | null
  | undef
  | room (r : String)
deriving DecidableEq, Repr

/-- Caller-defined scope bag; the parser inspects only `room`. -/
structure Scope where
  room : RoomVal
deriving DecidableEq, Repr

/-- The scope object `\x7b\x7d` (no `room` key). -/
def emptyScope : Scope := ⟨RoomVal.undef⟩

structure ParseOptions where
  scope : Option Scope
deriving DecidableEq, Repr

/-- An entity produced by the external resolver; the core reads only `id`
(extra fields pass through for display and are not modelled). -/
structure ResolvedEntity where
  id : String
deriving DecidableEq, Repr

/-- What one invocation of the external resolver callback does: throw, return
a non-array value, or return an array of entities.  Models the bundle's
try/catch around the call plus its `Array.isArray` test. -/
inductive ResolverOutcome where
  | threw
  | nonList
  | list (es : List ResolvedEntity)
deriving DecidableEq, Repr

def Resolver : Type := String → List String → Scope → ResolverOutcome

structure EntityRef where
  id : String
  noun : String
  adjectives : List String
deriving DecidableEq, Repr

structure Command where
  verb : String
  subject : Option EntityRef
  object : Option EntityRef
  preposition : Option String
  direction : Option String
  text : Option String
  raw : String
deriving DecidableEq, Repr

inductive Role where
  | subject
  | object
deriving DecidableEq, Repr

inductive ParseResult where
  | command (c : Command)
  | ambiguous (candidates : List ResolvedEntity) (original : String) (role : Role)
  | unknownVerb (verb : String)
  | unknownNoun (noun : String) (position : Nat)
  | parseError (message : String) (position : Nat)
deriving DecidableEq, Repr

structure ValidationError where
  message : String
  field : String
deriving DecidableEq, Repr

/-- A parser instance: its owned vocabulary and matching options (fixed at
creation), and the pronoun-tracking state mutated by `parse` — the closure
variables `m` (`lastReferent`) and `b` (`lastScope`) of the source. -/
structure ParserInstance where
  vocabulary : Vocabulary
  partialMatch : Bool
  minPartialLength : Nat
  lastReferent : Option EntityRef
  lastScope : RoomVal
deriving DecidableEq, Repr

/-- Creation options (`ParserOptions`); the mandatory `resolver` is passed to
`parse` separately here, since in this typed model it is always a function and
the `typeof` validation in `createParser` always passes. -/
structure ParserOptions where
  vocabulary : Option VocabularyOptions
  partialMatch : Option Bool
  minPartialLength : Option Nat
deriving DecidableEq, Repr

/-- Source `createParser` (bundled `D`), minus the resolver plumbing. -/
def createParser (options : ParserOptions) : ParserInstance where
  vocabulary := buildVocabulary options.vocabulary
  partialMatch := options.partialMatch.getD true
  minPartialLength := options.minPartialLength.getD 3
  lastReferent := none
  lastScope := RoomVal.null

/-- Verb lookup (source `findVerb`, bundled `d`): exact synonym pass in
vocabulary order, then an optional prefix pass. -/
def findVerb (p : ParserInstance) (word : String) : Option VerbDefinition :=
  match p.vocabulary.verbs.find? (fun v => v.synonyms.contains word) with
  | some v => some v
  | Option.none =>
    if p.partialMatch && decide (p.minPartialLength ≤ word.length) then
      p.vocabulary.verbs.find? (fun v => v.synonyms.any (fun syn => strStartsWith syn word))
    else
      Option.none

/-- Direction lookup (source `findDirection`, bundled `T`): exact alias match
only, returning the canonical name. -/
def findDirection (voc : Vocabulary) (word : String) : Option String :=
  (voc.directions.find? (fun dir => dir.aliases.contains word)).map (fun dir => dir.canonical)

/-- JavaScript truthiness of `findDirection`'s result: the canonical string is
truthy exactly when present and nonempty.  The source tests the returned
string directly (`if (w)`), so a custom direction whose canonical name is the
empty string would be treated as no match. -/
def strTruthy : Option String → Bool
  | Option.none => false
  | some s => decide (s ≠ "")

def isArticle (p : ParserInstance) (word : String) : Bool :=
  p.vocabulary.articles.contains word

def isPreposition (p : ParserInstance) (word : String) : Bool :=
  p.vocabulary.prepositions.contains word

/-- Index after the leading-article skip of the noun-phrase resolver. -/
def skipArticles (p : ParserInstance) (tokens : List Token) (startIndex : Nat) : Nat :=
  startIndex + ((tokens.drop startIndex).takeWhile (fun t => isArticle p t.value)).length

/-- The consecutive tokens collected by the noun-phrase loop from index `l`:
the loop stops at a preposition, at a token whose value is a truthy direction
match, or at the end of the stream. -/
def nounSpan (p : ParserInstance) (tokens : List Token) (l : Nat) : List Token :=
  (tokens.drop l).takeWhile
    (fun t => !(isPreposition p t.value || strTruthy (findDirection p.vocabulary t.value)))

/-- The word values the loop pushes: the span minus embedded articles. -/
def nounWords (p : ParserInstance) (tokens : List Token) (l : Nat) : List String :=
  ((nounSpan p tokens l).filter (fun t => !isArticle p t.value)).map (fun t => t.value)

/-- Position `o[i] ? o[i].start : 0` used by the source for error reporting. -/
def tokenStartAt (tokens : List Token) (i : Nat) : Nat :=
  (tokens[i]?).elim 0 (fun t => t.start)

/-- Position `h ? h.end : 0` of the last token, used for at-end errors. -/
def lastTokenEnd (tokens : List Token) : Nat :=
  (tokens.getLast?).elim 0 (fun t => t.stop)

def itReferentMessage : String := "Cannot use \"it\" without a previous referent"

/-- Result record of the noun-phrase resolver. -/
structure EntityParseResult where
  entity : Option EntityRef
  consumed : Nat
  error : Option ParseResult
deriving DecidableEq, Repr

/-- The collection-and-resolution tail of the noun-phrase resolver, entered
when the pronoun special case did not fire: collect words, split into
adjectives and noun, invoke the resolver, classify its outcome.  `l` is the
index after the skipped articles.  The source also guards against the last
collected word being the empty string (a quoted token may have an empty
value), which is falsy in JavaScript.  Its final guard on the single list
element being falsy is not modelled: list elements are entity records here,
and a JavaScript object is always truthy. -/
def collectAndResolve (p : ParserInstance) (resolver : Resolver) (tokens : List Token)
    (startIndex l : Nat) (scope : Option Scope) : EntityParseResult :=
  let u := nounWords p tokens l
  let lEnd := l + (nounSpan p tokens l).length
  if u.isEmpty then ⟨none, 0, none⟩
  else
    let noun := u.getLastD ""
    if noun = "" then ⟨none, 0, none⟩
    else
      let adjectives := u.dropLast
      match resolver noun adjectives (scope.getD emptyScope) with
      | .threw =>
        ⟨none, lEnd - startIndex, some (.unknownNoun noun (tokenStartAt tokens startIndex))⟩
      | .nonList =>
        ⟨none, lEnd - startIndex, some (.unknownNoun noun (tokenStartAt tokens startIndex))⟩
      | .list [] =>
        ⟨none, lEnd - startIndex, some (.unknownNoun noun (tokenStartAt tokens startIndex))⟩
      | .list [c1] =>
        ⟨some ⟨c1.id, noun, adjectives⟩, lEnd - startIndex, none⟩
      | .list (c1 :: c2 :: cs) =>
        ⟨none, lEnd - startIndex,
         some (.ambiguous (c1 :: c2 :: cs) (String.intercalate " " u) .subject)⟩

/-- The noun-phrase resolver (source `parseEntity`, bundled `S`): skip leading
articles, special-case the pronoun `it` before any resolver call, otherwise
collect and resolve. -/
def parseEntity (p : ParserInstance) (resolver : Resolver) (m : Option EntityRef)
    (tokens : List Token) (startIndex : Nat) (scope : Option Scope) : EntityParseResult :=
  let l := skipArticles p tokens startIndex
  match tokens[l]? with
  | some w =>
    if w.value = "it" then
      match m with
      | some r => ⟨some r, l - startIndex + 1, none⟩
      | none => ⟨none, l - startIndex + 1, some (.parseError itReferentMessage w.start)⟩
    else collectAndResolve p resolver tokens startIndex l scope
  | none => collectAndResolve p resolver tokens startIndex l scope

/-- The dispatcher's rewrite of an object-position ambiguity
(`v.type === "ambiguous" ? \x7b...v, role: "object"\x7d : v`). -/
def roleToObject : ParseResult → ParseResult
  | .ambiguous cs orig _ => .ambiguous cs orig .object
  | r => r

def expectedObjectMsg (verbCanonical : String) : String :=
  s!"Expected object after \"{verbCanonical}\""

def expectedTargetMsg (prepValue : String) : String :=
  s!"Expected target after \"{prepValue}\""

def expectedDirectionAfterMsg (verbCanonical : String) : String :=
  s!"Expected direction after \"{verbCanonical}\""

def expectedDirectionGotMsg (word : String) : String :=
  s!"Expected direction, got \"{word}\""

def expectedPrepositionGotMsg (word : String) : String :=
  s!"Expected preposition, got \"{word}\""

def expectedTextMsg (verbCanonical : String) : String :=
  s!"Expected text after \"{verbCanonical}\""

/-- The `direction` pattern branch of the dispatcher.  Every pattern branch
returns the `ParseResult` together with the value of the pronoun referent
after the branch (the source mutates `m` only on successful subject
resolution, so these branches return `m` unchanged). -/
def parseDirectionPattern (p : ParserInstance) (m : Option EntityRef)
    (tokens : List Token) (verbCanonical raw : String) : ParseResult × Option EntityRef :=
  if tokens.length < 2 then
    (.parseError (expectedDirectionAfterMsg verbCanonical) (lastTokenEnd tokens), m)
  else
    match tokens[1]? with
    | none => (.parseError (expectedDirectionAfterMsg verbCanonical) 0, m)
    | some c =>
      if strTruthy (findDirection p.vocabulary c.value) then
        (.command ⟨verbCanonical, none, none, none, findDirection p.vocabulary c.value,
          none, raw⟩, m)
      else
        (.parseError (expectedDirectionGotMsg c.value) c.start, m)

/-- The `text` pattern branch: the command text is the original input from the
second token's start, trimmed (case and punctuation preserved). -/
def parseTextPattern (m : Option EntityRef)
    (tokens : List Token) (verbCanonical raw : String) : ParseResult × Option EntityRef :=
  if tokens.length < 2 then
    (.parseError (expectedTextMsg verbCanonical) (lastTokenEnd tokens), m)
  else
    match tokens[1]? with
    | none => (.parseError (expectedTextMsg verbCanonical) 0, m)
    | some c =>
      (.command ⟨verbCanonical, none, none, none, none,
        some (String.mk (raw.data.drop c.start)).trim, raw⟩, m)

/-- The `subject` pattern branch: one noun phrase, then an optional trailing
`preposition object`; the subject becomes the new referent on success. -/
def parseSubjectPattern (p : ParserInstance) (resolver : Resolver) (m : Option EntityRef)
    (tokens : List Token) (scope : Option Scope) (verbCanonical raw : String) :
    ParseResult × Option EntityRef :=
  if tokens.length < 2 then
    (.parseError (expectedObjectMsg verbCanonical) (lastTokenEnd tokens), m)
  else
    match parseEntity p resolver m tokens 1 scope with
    | ⟨_, _, some err⟩ => (err, m)
    | ⟨none, _, none⟩ =>
      (.parseError (expectedObjectMsg verbCanonical) (tokenStartAt tokens 1), m)
    | ⟨some e, consumed, none⟩ =>
      let nextIndex := 1 + consumed
      match tokens[nextIndex]? with
      | some s =>
        if isPreposition p s.value then
          if tokens.length ≤ nextIndex + 1 then
            (.parseError (expectedTargetMsg s.value) s.stop, m)
          else
            match parseEntity p resolver m tokens (nextIndex + 1) scope with
            | ⟨_, _, some err⟩ => (roleToObject err, m)
            | ⟨none, _, none⟩ =>
              (.parseError (expectedTargetMsg s.value) (tokenStartAt tokens (nextIndex + 1)), m)
            | ⟨some obj, _, none⟩ =>
              (.command ⟨verbCanonical, some e, some obj, some s.value, none, none, raw⟩, some e)
        else
          (.command ⟨verbCanonical, some e, none, none, none, none, raw⟩, some e)
      | none => (.command ⟨verbCanonical, some e, none, none, none, none, raw⟩, some e)

/-- The `subject_object` pattern branch: subject phrase, required preposition,
required object phrase; the subject becomes the new referent on success. -/
def parseSubjectObjectPattern (p : ParserInstance) (resolver : Resolver) (m : Option EntityRef)
    (tokens : List Token) (scope : Option Scope) (verbCanonical raw : String) :
    ParseResult × Option EntityRef :=
  if tokens.length < 2 then
    (.parseError (expectedObjectMsg verbCanonical) (lastTokenEnd tokens), m)
  else
    match parseEntity p resolver m tokens 1 scope with
    | ⟨_, _, some err⟩ => (err, m)
    | ⟨none, _, none⟩ =>
      (.parseError (expectedObjectMsg verbCanonical) (tokenStartAt tokens 1), m)
    | ⟨some subj, consumed, none⟩ =>
      let nextIndex := 1 + consumed
      if tokens.length ≤ nextIndex then
        (.parseError "Expected preposition and target" (lastTokenEnd tokens), m)
      else
        match tokens[nextIndex]? with
        | none => (.parseError (expectedPrepositionGotMsg "nothing") (lastTokenEnd tokens), m)
        | some s =>
          if !isPreposition p s.value then
            (.parseError (expectedPrepositionGotMsg s.value) s.start, m)
          else if tokens.length ≤ nextIndex + 1 then
            (.parseError (expectedTargetMsg s.value) s.stop, m)
          else
            match parseEntity p resolver m tokens (nextIndex + 1) scope with
            | ⟨_, _, some err⟩ => (roleToObject err, m)
            | ⟨none, _, none⟩ =>
              (.parseError (expectedTargetMsg s.value) (tokenStartAt tokens (nextIndex + 1)), m)
            | ⟨some obj, _, none⟩ =>
              (.command ⟨verbCanonical, some subj, some obj, some s.value, none, none, raw⟩,
               some subj)

/-- The dispatcher over a token list (the body of `parse` after the length
guard, the room check and tokenization): bare direction shorthand, verb
lookup, then the per-pattern branch.  Returns the result together with the
referent value after the call. -/
def dispatch (p : ParserInstance) (resolver : Resolver) (m : Option EntityRef)
    (raw : String) (tokens : List Token) (scope : Option Scope) :
    ParseResult × Option EntityRef :=
  match tokens with
  | [] => (.parseError "Empty input" 0, m)
  | tok0 :: _ =>
    if strTruthy (findDirection p.vocabulary tok0.value) then
      (.command ⟨"GO", none, none, none, findDirection p.vocabulary tok0.value, none, raw⟩, m)
    else
      match findVerb p tok0.value with
      | none => (.unknownVerb tok0.value, m)
      | some verb =>
        match verb.pattern with
        | .none => (.command ⟨verb.canonical, none, none, none, none, none, raw⟩, m)
        | .direction => parseDirectionPattern p m tokens verb.canonical raw
        | .text => parseTextPattern m tokens verb.canonical raw
        | .subject => parseSubjectPattern p resolver m tokens scope verb.canonical raw
        | .subject_object => parseSubjectObjectPattern p resolver m tokens scope verb.canonical raw

/-- The hard input-length ceiling (bundled constant `O = 1e6`). -/
def maxInputLength : Nat := 1000000

def oversizedInputError : ValidationError :=
  ⟨s!"Input exceeds maximum length of {maxInputLength} characters", "input"⟩

/-- The room-identity check run at the top of every `parse` call (source line
`l && l.room !== b && (m = null, b = l.room)`): when a scope object is
provided and its `room` differs from the stored identity, the referent is
cleared and the identity updated. -/
def roomAdjust (p : ParserInstance) (scope : Option Scope) : ParserInstance :=
  match scope with
  | none => p
  | some sc =>
    if sc.room ≠ p.lastScope then
      { p with lastReferent := none, lastScope := sc.room }
    else p

/-- Source `parse` (bundled `$`): the length guard throws a `ValidationError`
before anything else; then the room check, tokenization and dispatch.  The
pair returned is (thrown error or parse result, parser state after the
call). -/
def parse (resolver : Resolver) (p : ParserInstance) (input : String)
    (opts : Option ParseOptions) : Except ValidationError ParseResult × ParserInstance :=
  let scope := opts.bind (fun o => o.scope)
  if maxInputLength < input.length then
    (.error oversizedInputError, p)
  else
    let p1 := roomAdjust p scope
    let tokens := tokenize input
    let out := dispatch p1 resolver p1.lastReferent input tokens scope
    (.ok out.1, { p1 with lastReferent := out.2 })

/-- Source `addVerb` (bundled `C`): push onto the instance's verb list. -/
def addVerb (voc : Vocabulary) (d : VerbDefinition) : Vocabulary :=
  { voc with verbs := voc.verbs ++ [d] }

/-- Source `addDirection` (bundled `N`): push onto the direction list. -/
def addDirection (voc : Vocabulary) (d : DirectionDefinition) : Vocabulary :=
  { voc with directions := voc.directions ++ [d] }

/-- Source `clearPronoun` (bundled `U`). -/
def clearPronoun (p : ParserInstance) : ParserInstance :=
  { p with lastReferent := none }

lemma parse_oversized {input : String} (resolver : Resolver) (p : ParserInstance)
    (opts : Option ParseOptions) (h : maxInputLength < input.length) :
    parse resolver p input opts = (.error oversizedInputError, p) := by
  simp [parse, h]

lemma parse_inbounds {input : String} (resolver : Resolver) (p : ParserInstance)
    (opts : Option ParseOptions) (h : ¬ maxInputLength < input.length) :
    parse resolver p input opts =
      ((.ok (dispatch (roomAdjust p (opts.bind fun o => o.scope)) resolver
          (roomAdjust p (opts.bind fun o => o.scope)).lastReferent input (tokenize input)
          (opts.bind fun o => o.scope)).1),
       { roomAdjust p (opts.bind fun o => o.scope) with
          lastReferent := (dispatch (roomAdjust p (opts.bind fun o => o.scope)) resolver
            (roomAdjust p (opts.bind fun o => o.scope)).lastReferent input (tokenize input)
            (opts.bind fun o => o.scope)).2 }) := by
  simp [parse, h]

/-- The errors the noun-phrase resolver can attach are never `command`
results (they are parse errors, unknown nouns or ambiguities). -/
lemma parseEntity_error_not_command {p : ParserInstance} {resolver : Resolver}
    {m : Option EntityRef} {tokens : List Token} {i : Nat} {scope : Option Scope}
    {ent : Option EntityRef} {k : Nat} {err : ParseResult}
    (h : parseEntity p resolver m tokens i scope = ⟨ent, k, some err⟩) :
    ∀ c, err ≠ .command c := by
  simp only [parseEntity, collectAndResolve] at h
  repeat' split at h
  all_goals injection h
  all_goals try simp_all
  all_goals (rename_i herr; rw [← herr]; intro c hc; exact ParseResult.noConfusion hc)

lemma roleToObject_not_command {err : ParseResult}
    (h : ∀ c, err ≠ .command c) : ∀ c, roleToObject err ≠ .command c := by
  intro c
  cases err with
  | command c0 => exact absurd rfl (h c0)
  | ambiguous a b r => simp [roleToObject]
  | unknownVerb v => simp [roleToObject]
  | unknownNoun n q => simp [roleToObject]
  | parseError msg q => simp [roleToObject]

lemma parseDirectionPattern_referent (p : ParserInstance) (m : Option EntityRef)
    (tokens : List Token) (vc raw : String) :
    (parseDirectionPattern p m tokens vc raw).2 = m ∧
    ∀ c, (parseDirectionPattern p m tokens vc raw).1 = .command c → c.subject = none := by
  unfold parseDirectionPattern
  repeat' split
  all_goals refine ⟨rfl, ?_⟩
  all_goals intro c hc
  all_goals first
    | exact ParseResult.noConfusion hc
    | (cases ParseResult.command.inj hc; rfl)

lemma parseTextPattern_referent (m : Option EntityRef)
    (tokens : List Token) (vc raw : String) :
    (parseTextPattern m tokens vc raw).2 = m ∧
    ∀ c, (parseTextPattern m tokens vc raw).1 = .command c → c.subject = none := by
  unfold parseTextPattern
  repeat' split
  all_goals refine ⟨rfl, ?_⟩
  all_goals intro c hc
  all_goals first
    | exact ParseResult.noConfusion hc
    | (cases ParseResult.command.inj hc; rfl)

/-- Referent behaviour of the `subject` branch: either it returns a command
whose subject is the new referent, or it leaves the referent alone and
returns no command. -/
lemma parseSubjectPattern_spec (p : ParserInstance) (resolver : Resolver)
    (m : Option EntityRef) (tokens : List Token) (scope : Option Scope) (vc raw : String) :
    (∃ c e, parseSubjectPattern p resolver m tokens scope vc raw = (.command c, some e) ∧
      c.subject = some e)
    ∨ ((parseSubjectPattern p resolver m tokens scope vc raw).2 = m ∧
       ∀ c, (parseSubjectPattern p resolver m tokens scope vc raw).1 ≠ .command c) := by
  by_cases hlen : tokens.length < 2
  · have hval : parseSubjectPattern p resolver m tokens scope vc raw =
        (.parseError (expectedObjectMsg vc) (lastTokenEnd tokens), m) := by
      simp [parseSubjectPattern, hlen]
    right
    rw [hval]
    exact ⟨rfl, fun c hc => ParseResult.noConfusion hc⟩
  · rcases hpe : parseEntity p resolver m tokens 1 scope with ⟨ent, k, err⟩
    cases err with
    | some e0 =>
      have hval : parseSubjectPattern p resolver m tokens scope vc raw = (e0, m) := by
        simp [parseSubjectPattern, hlen, hpe]
      right
      rw [hval]
      exact ⟨rfl, parseEntity_error_not_command hpe⟩
    | none =>
      cases ent with
      | none =>
        have hval : parseSubjectPattern p resolver m tokens scope vc raw =
            (.parseError (expectedObjectMsg vc) (tokenStartAt tokens 1), m) := by
          simp [parseSubjectPattern, hlen, hpe]
        right
        rw [hval]
        exact ⟨rfl, fun c hc => ParseResult.noConfusion hc⟩
      | some e =>
        cases hnext : tokens[1 + k]? with
        | none =>
          have hval : parseSubjectPattern p resolver m tokens scope vc raw =
              (.command ⟨vc, some e, none, none, none, none, raw⟩, some e) := by
            simp [parseSubjectPattern, hlen, hpe, hnext]
          exact Or.inl ⟨_, e, hval, rfl⟩
        | some s =>
          by_cases hprep : isPreposition p s.value
          · by_cases hend : tokens.length ≤ 1 + k + 1
            · have hval : parseSubjectPattern p resolver m tokens scope vc raw =
                  (.parseError (expectedTargetMsg s.value) s.stop, m) := by
                simp [parseSubjectPattern, hlen, hpe, hnext, hprep, hend]
              right
              rw [hval]
              exact ⟨rfl, fun c hc => ParseResult.noConfusion hc⟩
            · rcases hpe2 : parseEntity p resolver m tokens (1 + k + 1) scope with ⟨ent2, k2, err2⟩
              cases err2 with
              | some e2 =>
                have hval : parseSubjectPattern p resolver m tokens scope vc raw =
                    (roleToObject e2, m) := by
                  simp [parseSubjectPattern, hlen, hpe, hnext, hprep, hend, hpe2]
                right
                rw [hval]
                exact ⟨rfl, roleToObject_not_command (parseEntity_error_not_command hpe2)⟩
              | none =>
                cases ent2 with
                | none =>
                  have hval : parseSubjectPattern p resolver m tokens scope vc raw =
                      (.parseError (expectedTargetMsg s.value)
                        (tokenStartAt tokens (1 + k + 1)), m) := by
                    simp [parseSubjectPattern, hlen, hpe, hnext, hprep, hend, hpe2]
                  right
                  rw [hval]
                  exact ⟨rfl, fun c hc => ParseResult.noConfusion hc⟩
                | some obj =>
                  have hval : parseSubjectPattern p resolver m tokens scope vc raw =
                      (.command ⟨vc, some e, some obj, some s.value, none, none, raw⟩,
                       some e) := by
                    simp [parseSubjectPattern, hlen, hpe, hnext, hprep, hend, hpe2]
                  exact Or.inl ⟨_, e, hval, rfl⟩
          · have hval : parseSubjectPattern p resolver m tokens scope vc raw =
                (.command ⟨vc, some e, none, none, none, none, raw⟩, some e) := by
              simp [parseSubjectPattern, hlen, hpe, hnext, hprep]
            exact Or.inl ⟨_, e, hval, rfl⟩

/-- Referent behaviour of the `subject_object` branch, as for `subject`. -/
lemma parseSubjectObjectPattern_spec (p : ParserInstance) (resolver : Resolver)
    (m : Option EntityRef) (tokens : List Token) (scope : Option Scope) (vc raw : String) :
    (∃ c e, parseSubjectObjectPattern p resolver m tokens scope vc raw = (.command c, some e) ∧
      c.subject = some e)
    ∨ ((parseSubjectObjectPattern p resolver m tokens scope vc raw).2 = m ∧
       ∀ c, (parseSubjectObjectPattern p resolver m tokens scope vc raw).1 ≠ .command c) := by
  by_cases hlen : tokens.length < 2
  · have hval : parseSubjectObjectPattern p resolver m tokens scope vc raw =
        (.parseError (expectedObjectMsg vc) (lastTokenEnd tokens), m) := by
      simp [parseSubjectObjectPattern, hlen]
    right
    rw [hval]
    exact ⟨rfl, fun c hc => ParseResult.noConfusion hc⟩
  · rcases hpe : parseEntity p resolver m tokens 1 scope with ⟨ent, k, err⟩
    cases err with
    | some e0 =>
      have hval : parseSubjectObjectPattern p resolver m tokens scope vc raw = (e0, m) := by
        simp [parseSubjectObjectPattern, hlen, hpe]
      right
      rw [hval]
      exact ⟨rfl, parseEntity_error_not_command hpe⟩
    | none =>
      cases ent with
      | none =>
        have hval : parseSubjectObjectPattern p resolver m tokens scope vc raw =
            (.parseError (expectedObjectMsg vc) (tokenStartAt tokens 1), m) := by
          simp [parseSubjectObjectPattern, hlen, hpe]
        right
        rw [hval]
        exact ⟨rfl, fun c hc => ParseResult.noConfusion hc⟩
      | some subj =>
        by_cases hnl : tokens.length ≤ 1 + k
        · have hval : parseSubjectObjectPattern p resolver m tokens scope vc raw =
              (.parseError "Expected preposition and target" (lastTokenEnd tokens), m) := by
            simp [parseSubjectObjectPattern, hlen, hpe, hnl]
          right
          rw [hval]
          exact ⟨rfl, fun c hc => ParseResult.noConfusion hc⟩
        · cases hnext : tokens[1 + k]? with
          | none =>
            have hval : parseSubjectObjectPattern p resolver m tokens scope vc raw =
                (.parseError (expectedPrepositionGotMsg "nothing") (lastTokenEnd tokens), m) := by
              simp [parseSubjectObjectPattern, hlen, hpe, hnl, hnext]
            right
            rw [hval]
            exact ⟨rfl, fun c hc => ParseResult.noConfusion hc⟩
          | some s =>
            by_cases hprep : isPreposition p s.value
            · by_cases hend : tokens.length ≤ 1 + k + 1
              · have hval : parseSubjectObjectPattern p resolver m tokens scope vc raw =
                    (.parseError (expectedTargetMsg s.value) s.stop, m) := by
                  simp [parseSubjectObjectPattern, hlen, hpe, hnl, hnext, hprep, hend]
                right
                rw [hval]
                exact ⟨rfl, fun c hc => ParseResult.noConfusion hc⟩
              · rcases hpe2 : parseEntity p resolver m tokens (1 + k + 1) scope with
                  ⟨ent2, k2, err2⟩
                cases err2 with
                | some e2 =>
                  have hval : parseSubjectObjectPattern p resolver m tokens scope vc raw =
                      (roleToObject e2, m) := by
                    simp [parseSubjectObjectPattern, hlen, hpe, hnl, hnext, hprep, hend, hpe2]
                  right
                  rw [hval]
                  exact ⟨rfl, roleToObject_not_command (parseEntity_error_not_command hpe2)⟩
                | none =>
                  cases ent2 with
                  | none =>
                    have hval : parseSubjectObjectPattern p resolver m tokens scope vc raw =
                        (.parseError (expectedTargetMsg s.value)
                          (tokenStartAt tokens (1 + k + 1)), m) := by
                      simp [parseSubjectObjectPattern, hlen, hpe, hnl, hnext, hprep, hend, hpe2]
                    right
                    rw [hval]
                    exact ⟨rfl, fun c hc => ParseResult.noConfusion hc⟩
                  | some obj =>
                    have hval : parseSubjectObjectPattern p resolver m tokens scope vc raw =
                        (.command ⟨vc, some subj, some obj, some s.value, none, none, raw⟩,
                         some subj) := by
                      simp [parseSubjectObjectPattern, hlen, hpe, hnl, hnext, hprep, hend, hpe2]
                    exact Or.inl ⟨_, subj, hval, rfl⟩
            · have hval : parseSubjectObjectPattern p resolver m tokens scope vc raw =
                  (.parseError (expectedPrepositionGotMsg s.value) s.start, m) := by
                simp [parseSubjectObjectPattern, hlen, hpe, hnl, hnext, hprep]
              right
              rw [hval]
              exact ⟨rfl, fun c hc => ParseResult.noConfusion hc⟩

/-- Referent behaviour of the whole dispatcher: a command result carrying a
subject makes that subject the referent; otherwise the referent is
untouched and any command result carries no subject. -/
lemma dispatch_spec (p : ParserInstance) (resolver : Resolver) (m : Option EntityRef)
    (raw : String) (tokens : List Token) (scope : Option Scope) :
    (∃ c e, dispatch p resolver m raw tokens scope = (.command c, some e) ∧ c.subject = some e)
    ∨ ((dispatch p resolver m raw tokens scope).2 = m ∧
       ∀ c, (dispatch p resolver m raw tokens scope).1 = .command c → c.subject = none) := by
  cases tokens with
  | nil =>
    have hval : dispatch p resolver m raw [] scope = (.parseError "Empty input" 0, m) := rfl
    right
    rw [hval]
    exact ⟨rfl, fun c hc => ParseResult.noConfusion hc⟩
  | cons tok0 rest =>
    by_cases hdir : strTruthy (findDirection p.vocabulary tok0.value)
    · have hval : dispatch p resolver m raw (tok0 :: rest) scope =
          (.command ⟨"GO", none, none, none, findDirection p.vocabulary tok0.value,
            none, raw⟩, m) := by
        simp [dispatch, hdir]
      right
      rw [hval]
      refine ⟨rfl, fun c hc => ?_⟩
      cases ParseResult.command.inj hc
      rfl
    · cases hfv : findVerb p tok0.value with
      | none =>
        have hval : dispatch p resolver m raw (tok0 :: rest) scope =
            (.unknownVerb tok0.value, m) := by
          simp [dispatch, hdir, hfv]
        right
        rw [hval]
        exact ⟨rfl, fun c hc => ParseResult.noConfusion hc⟩
      | some verb =>
        cases hpat : verb.pattern with
        | none =>
          have hval : dispatch p resolver m raw (tok0 :: rest) scope =
              (.command ⟨verb.canonical, none, none, none, none, none, raw⟩, m) := by
            simp [dispatch, hdir, hfv, hpat]
          right
          rw [hval]
          refine ⟨rfl, fun c hc => ?_⟩
          cases ParseResult.command.inj hc
          rfl
        | direction =>
          have hval : dispatch p resolver m raw (tok0 :: rest) scope =
              parseDirectionPattern p m (tok0 :: rest) verb.canonical raw := by
            simp [dispatch, hdir, hfv, hpat]
          right
          rw [hval]
          exact parseDirectionPattern_referent p m (tok0 :: rest) verb.canonical raw
        | text =>
          have hval : dispatch p resolver m raw (tok0 :: rest) scope =
              parseTextPattern m (tok0 :: rest) verb.canonical raw := by
            simp [dispatch, hdir, hfv, hpat]
          right
          rw [hval]
          exact parseTextPattern_referent m (tok0 :: rest) verb.canonical raw
        | subject =>
          have hval : dispatch p resolver m raw (tok0 :: rest) scope =
              parseSubjectPattern p resolver m (tok0 :: rest) scope verb.canonical raw := by
            simp [dispatch, hdir, hfv, hpat]
          rw [hval]
          rcases parseSubjectPattern_spec p resolver m (tok0 :: rest) scope verb.canonical raw
            with h | ⟨h1, h2⟩
          · exact Or.inl h
          · exact Or.inr ⟨h1, fun c hc => absurd hc (h2 c)⟩
        | subject_object =>
          have hval : dispatch p resolver m raw (tok0 :: rest) scope =
              parseSubjectObjectPattern p resolver m (tok0 :: rest) scope verb.canonical raw := by
            simp [dispatch, hdir, hfv, hpat]
          rw [hval]
          rcases parseSubjectObjectPattern_spec p resolver m (tok0 :: rest) scope verb.canonical
            raw with h | ⟨h1, h2⟩
          · exact Or.inl h
          · exact Or.inr ⟨h1, fun c hc => absurd hc (h2 c)⟩

deriving instance DecidableEq for Except

/-- A default-vocabulary instance with chosen matching options and pronoun
state, for concrete scenarios. -/
def defaultInstanceWith (pm : Bool) (mpl : Nat) (m : Option EntityRef) (ls : RoomVal) :
    ParserInstance :=
  ⟨buildVocabulary none, pm, mpl, m, ls⟩

/-- The instance `createParser` returns for empty options. -/
def pDefault : ParserInstance := createParser ⟨none, none, none⟩

/-- A resolver that resolves every noun to the single entity with that id. -/
def resolverEcho : Resolver := fun noun _ _ => .list [⟨noun⟩]

/-- A resolver whose callback always throws. -/
def resolverThrows : Resolver := fun _ _ _ => .threw

def lampRef : EntityRef := ⟨"lamp-1", "lamp", []⟩

def bigInput : String := String.mk (List.replicate 1000001 'a')

def maxLenInput : String := String.mk (List.replicate 1000000 'a')

lemma string_length_mk (l : List Char) : (String.mk l).length = l.length := rfl

lemma bigInput_length : bigInput.length = 1000001 := by
  rw [bigInput, string_length_mk]
  exact List.length_replicate 1000001 'a'

lemma maxLenInput_length : maxLenInput.length = 1000000 := by
  rw [maxLenInput, string_length_mk]
  exact List.length_replicate 1000000 'a'

/-- Claim C1: for every parser instance and input string, `parse` throws a
validation failure if and only if the input length exceeds 1,000,000; the
guard runs before anything else (on a throw the instance state, including the
pronoun referent and room identity, is returned untouched), an input of
length exactly 1,000,000 returns a `ParseResult`, and no other input shape
throws. -/
theorem parse_length_validation :
    (∀ (resolver : Resolver) (p : ParserInstance) (input : String) (opts : Option ParseOptions),
      maxInputLength < input.length →
        parse resolver p input opts = (.error oversizedInputError, p))
    ∧ (∀ (resolver : Resolver) (p : ParserInstance) (input : String) (opts : Option ParseOptions),
      input.length ≤ maxInputLength →
        ∃ r, (parse resolver p input opts).1 = .ok r) := by
  constructor
  · intro resolver p input opts h
    exact parse_oversized resolver p opts h
  · intro resolver p input opts h
    rw [parse_inbounds resolver p opts (by omega)]
    exact ⟨_, rfl⟩

/-- Witness for C1: an input of 1,000,001 characters throws the validation
error and leaves the instance untouched; an input of exactly 1,000,000
characters returns a result. -/
theorem parse_length_validation_witness :
    parse resolverEcho pDefault bigInput none = (.error oversizedInputError, pDefault)
    ∧ ∃ r, (parse resolverEcho pDefault maxLenInput none).1 = .ok r :=
  ⟨parse_length_validation.1 resolverEcho pDefault bigInput none
      (by rw [bigInput_length]; decide),
   parse_length_validation.2 resolverEcho pDefault maxLenInput none
      (by rw [maxLenInput_length]; decide)⟩

/-- Claim C4: a parse returning a `Command` with a subject makes that subject
the pronoun referent; with the referent set, `parse "examine it"` on a
default-vocabulary instance returns a command whose subject is the referent
(hence equal ids with the earlier subject); `clearPronoun` clears the
referent unconditionally without touching the room identity or vocabulary;
with no referent, a noun phrase beginning with `it` yields a `ParseError`
whose message mentions `it`, positioned at the `it` token (offset 8 in
`examine it`). -/
theorem pronoun_referent_lifecycle :
    (∀ (resolver : Resolver) (p : ParserInstance) (input : String) (opts : Option ParseOptions)
        (c : Command) (e : EntityRef) (q : ParserInstance),
      parse resolver p input opts = (.ok (.command c), q) → c.subject = some e →
        q.lastReferent = some e)
    ∧ (∀ (resolver : Resolver) (e : EntityRef) (pm : Bool) (mpl : Nat) (ls : RoomVal),
      parse resolver (defaultInstanceWith pm mpl (some e) ls) "examine it" none =
        (.ok (.command ⟨"EXAMINE", some e, none, none, none, none, "examine it"⟩),
         defaultInstanceWith pm mpl (some e) ls))
    ∧ (∀ p : ParserInstance, (clearPronoun p).lastReferent = none ∧
        (clearPronoun p).lastScope = p.lastScope ∧
        (clearPronoun p).vocabulary = p.vocabulary)
    ∧ (∀ (resolver : Resolver) (pm : Bool) (mpl : Nat) (ls : RoomVal),
      parse resolver (defaultInstanceWith pm mpl none ls) "examine it" none =
        (.ok (.parseError itReferentMessage 8), defaultInstanceWith pm mpl none ls))
    ∧ (∃ a b, itReferentMessage = a ++ "it" ++ b) := by
  refine ⟨?_, ?_, ?_, ?_, ?_⟩
  · intro resolver p input opts c e q hparse hsubj
    by_cases hlen : maxInputLength < input.length
    · rw [parse_oversized resolver p opts hlen] at hparse
      simp at hparse
    · rw [parse_inbounds resolver p opts hlen] at hparse
      rw [Prod.mk.injEq] at hparse
      obtain ⟨hfst, hsnd⟩ := hparse
      rcases dispatch_spec (roomAdjust p (opts.bind fun o => o.scope)) resolver
          (roomAdjust p (opts.bind fun o => o.scope)).lastReferent input (tokenize input)
          (opts.bind fun o => o.scope) with ⟨c', e', hd, hsub⟩ | ⟨hm, hcmds⟩
      · rw [hd] at hfst hsnd
        have hc : c' = c := by
          have := Except.ok.inj hfst
          exact ParseResult.command.inj this
        subst hc
        rw [← hsnd]
        have : some e = some e' := by rw [← hsubj, hsub]
        simp [← Option.some.inj this]
      · have hres := Except.ok.inj hfst
        rw [hcmds c hres] at hsubj
        exact absurd hsubj (by simp)
  · intro resolver e pm mpl ls
    rfl
  · intro p
    exact ⟨rfl, rfl, rfl⟩
  · intro resolver pm mpl ls
    rfl
  · exact ⟨"Cannot use \"", "\" without a previous referent", rfl⟩

/-- Witness for C4: `get lamp` then `examine it` yields the same subject id,
and after `clearPronoun` the same input yields the `ParseError` at the `it`
token. -/
theorem pronoun_referent_lifecycle_witness :
    (parse resolverEcho
        (parse resolverEcho pDefault "get lamp" none).2 "examine it" none).1 =
      .ok (.command ⟨"EXAMINE", some ⟨"lamp", "lamp", []⟩, none, none, none, none,
        "examine it"⟩)
    ∧ (parse resolverEcho
        (clearPronoun (parse resolverEcho pDefault "get lamp" none).2) "examine it" none).1 =
      .ok (.parseError itReferentMessage 8) := by
  have hget : (parse resolverEcho pDefault "get lamp" none).2 =
      defaultInstanceWith true 3 (some ⟨"lamp", "lamp", []⟩) RoomVal.null := by decide
  have hclr : clearPronoun (defaultInstanceWith true 3 (some ⟨"lamp", "lamp", []⟩)
      RoomVal.null) = defaultInstanceWith true 3 none RoomVal.null := rfl
  have h2 := pronoun_referent_lifecycle.2.1 resolverEcho ⟨"lamp", "lamp", []⟩ true 3 RoomVal.null
  have h4 := pronoun_referent_lifecycle.2.2.2.1 resolverEcho true 3 RoomVal.null
  constructor
  · rw [hget, h2]
  · rw [hget, hclr, h4]

/-- Claim C8: whenever `parse` returns a non-`Command` result, the parser
state after the call is exactly the state after the room-change check (the
referent is what it was at the start of the call apart from room-change
clearing); and a throwing call leaves the state fully untouched. -/
theorem failed_parse_preserves_referent :
    (∀ (resolver : Resolver) (p : ParserInstance) (input : String) (opts : Option ParseOptions)
        (res : ParseResult) (q : ParserInstance),
      parse resolver p input opts = (.ok res, q) → (∀ c, res ≠ .command c) →
        q = roomAdjust p (opts.bind fun o => o.scope))
    ∧ (∀ (resolver : Resolver) (p : ParserInstance) (input : String) (opts : Option ParseOptions)
        (err : ValidationError) (q : ParserInstance),
      parse resolver p input opts = (.error err, q) → q = p) := by
  constructor
  · intro resolver p input opts res q hparse hnc
    by_cases hlen : maxInputLength < input.length
    · rw [parse_oversized resolver p opts hlen] at hparse
      simp at hparse
    · rw [parse_inbounds resolver p opts hlen] at hparse
      rw [Prod.mk.injEq] at hparse
      obtain ⟨hfst, hsnd⟩ := hparse
      rcases dispatch_spec (roomAdjust p (opts.bind fun o => o.scope)) resolver
          (roomAdjust p (opts.bind fun o => o.scope)).lastReferent input (tokenize input)
          (opts.bind fun o => o.scope) with ⟨c', e', hd, hsub⟩ | ⟨hm, hcmds⟩
      · rw [hd] at hfst
        have := Except.ok.inj hfst
        exact absurd this.symm (hnc c')
      · rw [hm] at hsnd
        rw [← hsnd]
  · intro resolver p input opts err q hparse
    by_cases hlen : maxInputLength < input.length
    · rw [parse_oversized resolver p opts hlen] at hparse
      rw [Prod.mk.injEq] at hparse
      exact hparse.2.symm
    · rw [parse_inbounds resolver p opts hlen] at hparse
      simp at hparse

/-- Witness for C8: an unknown-verb parse with a referent set preserves the
state (the referent in particular), and an oversized input returns the
instance untouched. -/
theorem failed_parse_preserves_referent_witness :
    (parse resolverEcho (defaultInstanceWith true 3 (some lampRef) RoomVal.null)
        "xyzzy foo" none).2 =
      roomAdjust (defaultInstanceWith true 3 (some lampRef) RoomVal.null) none
    ∧ (parse resolverEcho (defaultInstanceWith true 3 (some lampRef) RoomVal.null)
        bigInput none).2 = defaultInstanceWith true 3 (some lampRef) RoomVal.null := by
  have h1 : parse resolverEcho (defaultInstanceWith true 3 (some lampRef) RoomVal.null)
      "xyzzy foo" none =
      (.ok (.unknownVerb "xyzzy"), defaultInstanceWith true 3 (some lampRef) RoomVal.null) := by
    decide
  have h2 := parse_oversized resolverEcho
    (defaultInstanceWith true 3 (some lampRef) RoomVal.null) none
    (show maxInputLength < bigInput.length by rw [bigInput_length]; decide)
  constructor
  · exact failed_parse_preserves_referent.1 resolverEcho
      (defaultInstanceWith true 3 (some lampRef) RoomVal.null) "xyzzy foo" none
      (.unknownVerb "xyzzy")
      ((parse resolverEcho (defaultInstanceWith true 3 (some lampRef) RoomVal.null)
        "xyzzy foo" none).2)
      (by rw [h1]) (fun c hc => ParseResult.noConfusion hc)
  · exact failed_parse_preserves_referent.2 resolverEcho
      (defaultInstanceWith true 3 (some lampRef) RoomVal.null) bigInput none
      oversizedInputError
      ((parse resolverEcho (defaultInstanceWith true 3 (some lampRef) RoomVal.null)
        bigInput none).2)
      (by rw [h2])

lemma roomAdjust_idem (p : ParserInstance) (s : Option Scope) :
    roomAdjust (roomAdjust p s) s = roomAdjust p s := by
  cases s with
  | none => rfl
  | some sc =>
    by_cases h : sc.room ≠ p.lastScope
    · simp [roomAdjust, h]
    · simp [roomAdjust, h]

lemma roomAdjust_lastScope (p : ParserInstance) (sc : Scope) :
    (roomAdjust p (some sc)).lastScope = sc.room := by
  by_cases h : sc.room ≠ p.lastScope
  · simp [roomAdjust, h]
  · push_neg at h
    simp [roomAdjust, h]

/-- A parse within the length limit behaves exactly as on the room-adjusted
instance: what the room check does to the state is all the scope can do
before dispatch. -/
lemma parse_eq_parse_roomAdjusted {input : String} (resolver : Resolver) (p : ParserInstance)
    (opts : Option ParseOptions) (h : ¬ maxInputLength < input.length) :
    parse resolver p input opts =
      parse resolver (roomAdjust p (opts.bind fun o => o.scope)) input opts := by
  rw [parse_inbounds resolver p opts h, parse_inbounds resolver _ opts h, roomAdjust_idem]

/-- Counterexample to claim C5 as stated: a parse call whose scope carries a
new room identity but whose input exceeds the length ceiling throws before
the room check, leaving the pronoun referent and the stored room identity
unchanged. -/
theorem room_change_skipped_when_oversized_cex :
    RoomVal.room "r2" ≠ (defaultInstanceWith true 3 (some lampRef) RoomVal.null).lastScope
    ∧ (parse resolverEcho (defaultInstanceWith true 3 (some lampRef) RoomVal.null) bigInput
        (some ⟨some ⟨RoomVal.room "r2"⟩⟩)).2.lastReferent = some lampRef
    ∧ (parse resolverEcho (defaultInstanceWith true 3 (some lampRef) RoomVal.null) bigInput
        (some ⟨some ⟨RoomVal.room "r2"⟩⟩)).2.lastScope = RoomVal.null := by
  have h := parse_oversized resolverEcho (defaultInstanceWith true 3 (some lampRef) RoomVal.null)
    (some ⟨some ⟨RoomVal.room "r2"⟩⟩)
    (show maxInputLength < bigInput.length by rw [bigInput_length]; decide)
  refine ⟨by decide, ?_, ?_⟩ <;> (rw [h]; rfl)

/-- Claim C5 (amended): on every parse call that passes the input-length
guard and whose scope carries a room identity different from the stored one,
the referent is cleared and the stored identity updated before tokenization
and dispatch: the call is indistinguishable from one on the cleared
instance, and the stored identity after the call is the new room even when
the parse otherwise fails.  (As frozen the claim is false only for oversized
inputs, which throw before the room check.) -/
theorem room_change_clears_referent_amended (resolver : Resolver) (p : ParserInstance)
    (input : String) (sc : Scope)
    (hlen : input.length ≤ maxInputLength) (hne : sc.room ≠ p.lastScope) :
    parse resolver p input (some ⟨some sc⟩) =
      parse resolver { p with lastReferent := none, lastScope := sc.room } input
        (some ⟨some sc⟩)
    ∧ (parse resolver p input (some ⟨some sc⟩)).2.lastScope = sc.room := by
  have hno : ¬ maxInputLength < input.length := by omega
  have hbind : ((some (⟨some sc⟩ : ParseOptions)).bind fun o => o.scope) = some sc := rfl
  have hra : roomAdjust p (some sc) =
      { p with lastReferent := none, lastScope := sc.room } := by
    simp [roomAdjust, hne]
  constructor
  · rw [parse_eq_parse_roomAdjusted resolver p (some ⟨some sc⟩) hno, hbind, hra]
  · rw [parse_inbounds resolver p (some ⟨some sc⟩) hno]
    rw [show ({ roomAdjust p ((some (⟨some sc⟩ : ParseOptions)).bind fun o => o.scope) with
        lastReferent := (dispatch (roomAdjust p ((some (⟨some sc⟩ : ParseOptions)).bind
          fun o => o.scope)) resolver (roomAdjust p ((some (⟨some sc⟩ : ParseOptions)).bind
          fun o => o.scope)).lastReferent input (tokenize input)
          ((some (⟨some sc⟩ : ParseOptions)).bind fun o => o.scope)).2 } :
        ParserInstance).lastScope =
      (roomAdjust p (some sc)).lastScope from rfl]
    exact roomAdjust_lastScope p sc

/-- Witness for the amended C5: a small parse with a changed room identity
equals the parse on the cleared instance, and stores the new identity. -/
theorem room_change_clears_referent_witness :
    parse resolverEcho (defaultInstanceWith true 3 (some lampRef) RoomVal.null) "look"
      (some ⟨some ⟨RoomVal.room "r2"⟩⟩) =
      parse resolverEcho { defaultInstanceWith true 3 (some lampRef) RoomVal.null with
        lastReferent := none, lastScope := RoomVal.room "r2" } "look"
        (some ⟨some ⟨RoomVal.room "r2"⟩⟩)
    ∧ (parse resolverEcho (defaultInstanceWith true 3 (some lampRef) RoomVal.null) "look"
      (some ⟨some ⟨RoomVal.room "r2"⟩⟩)).2.lastScope = RoomVal.room "r2" :=
  room_change_clears_referent_amended resolverEcho
    (defaultInstanceWith true 3 (some lampRef) RoomVal.null) "look" ⟨RoomVal.room "r2"⟩
    (by decide) (by decide)

/-- Counterexample to claim C10 as stated: with a scope object lacking the
`room` key and a stored identity other than `undefined`, an oversized input
still preserves the referent, because the length guard throws first. -/
theorem scope_missing_room_oversized_cex :
    (defaultInstanceWith true 3 (some lampRef) RoomVal.null).lastScope ≠ RoomVal.undef
    ∧ (parse resolverEcho (defaultInstanceWith true 3 (some lampRef) RoomVal.null) bigInput
        (some ⟨some emptyScope⟩)).2.lastReferent = some lampRef := by
  have h := parse_oversized resolverEcho (defaultInstanceWith true 3 (some lampRef) RoomVal.null)
    (some ⟨some emptyScope⟩)
    (show maxInputLength < bigInput.length by rw [bigInput_length]; decide)
  refine ⟨by decide, ?_⟩
  rw [h]
  rfl

/-- Claim C10 (amended): a scope object lacking the `room` key carries the
identity `undefined`; within the length limit such a call behaves as on the
instance with the referent cleared and `undefined` stored whenever the
stored identity differs from `undefined`; and any call whose options carry
no scope leaves the stored identity unchanged and changes the referent only
by a successful subject resolution.  (As frozen the claim is false only for
oversized inputs, which throw before the room check.) -/
theorem scope_missing_room_amended :
    (∀ (resolver : Resolver) (p : ParserInstance) (input : String),
      input.length ≤ maxInputLength → p.lastScope ≠ RoomVal.undef →
        parse resolver p input (some ⟨some emptyScope⟩) =
          parse resolver { p with lastReferent := none, lastScope := RoomVal.undef } input
            (some ⟨some emptyScope⟩))
    ∧ (∀ (resolver : Resolver) (p : ParserInstance) (input : String)
        (opts : Option ParseOptions),
      opts.bind (fun o => o.scope) = none →
        (parse resolver p input opts).2.lastScope = p.lastScope
        ∧ ((parse resolver p input opts).2.lastReferent = p.lastReferent
           ∨ ∃ c e, (parse resolver p input opts).1 = .ok (.command c) ∧ c.subject = some e ∧
               (parse resolver p input opts).2.lastReferent = some e)) := by
  constructor
  · intro resolver p input hlen hne
    have hno : ¬ maxInputLength < input.length := by omega
    have hbind : ((some (⟨some emptyScope⟩ : ParseOptions)).bind fun o => o.scope) =
        some emptyScope := rfl
    have hcond : emptyScope.room ≠ p.lastScope := fun hc => hne (by rw [← hc]; rfl)
    have hra : roomAdjust p (some emptyScope) =
        { p with lastReferent := none, lastScope := RoomVal.undef } := by
      simp only [roomAdjust]
      rw [if_pos hcond]
      rfl
    rw [parse_eq_parse_roomAdjusted resolver p (some ⟨some emptyScope⟩) hno, hbind, hra]
  · intro resolver p input opts hnone
    by_cases hlen : maxInputLength < input.length
    · rw [parse_oversized resolver p opts hlen]
      exact ⟨rfl, Or.inl rfl⟩
    · rw [parse_inbounds resolver p opts hlen, hnone]
      rcases dispatch_spec (roomAdjust p none) resolver (roomAdjust p none).lastReferent input
          (tokenize input) none with ⟨c', e', hd, hsub⟩ | ⟨hm, hcmds⟩
      · rw [hd]
        exact ⟨rfl, Or.inr ⟨c', e', rfl, hsub, rfl⟩⟩
      · rw [hm]
        exact ⟨rfl, Or.inl rfl⟩

/-- Witness for the amended C10: a scope lacking `room` over a null stored
identity behaves as the cleared instance; omitting the scope preserves the
stored identity, and the referent changes only via subject resolution. -/
theorem scope_missing_room_witness :
    (parse resolverEcho (defaultInstanceWith true 3 (some lampRef) RoomVal.null) "look"
        (some ⟨some emptyScope⟩) =
      parse resolverEcho { defaultInstanceWith true 3 (some lampRef) RoomVal.null with
        lastReferent := none, lastScope := RoomVal.undef } "look" (some ⟨some emptyScope⟩))
    ∧ ((parse resolverEcho (defaultInstanceWith true 3 (some lampRef) RoomVal.null) "look"
        none).2.lastScope = (defaultInstanceWith true 3 (some lampRef) RoomVal.null).lastScope
      ∧ ((parse resolverEcho (defaultInstanceWith true 3 (some lampRef) RoomVal.null) "look"
          none).2.lastReferent =
            (defaultInstanceWith true 3 (some lampRef) RoomVal.null).lastReferent
        ∨ ∃ c e, (parse resolverEcho (defaultInstanceWith true 3 (some lampRef) RoomVal.null)
              "look" none).1 = .ok (.command c) ∧ c.subject = some e ∧
            (parse resolverEcho (defaultInstanceWith true 3 (some lampRef) RoomVal.null)
              "look" none).2.lastReferent = some e)) :=
  ⟨scope_missing_room_amended.1 resolverEcho
      (defaultInstanceWith true 3 (some lampRef) RoomVal.null) "look" (by decide) (by decide),
   scope_missing_room_amended.2 resolverEcho
      (defaultInstanceWith true 3 (some lampRef) RoomVal.null) "look" none rfl⟩

/-- Classification of the resolver outcomes the noun-phrase resolver
downgrades to `UnknownNoun`: a throw, a non-array value, or an empty list. -/
def resolverFails : ResolverOutcome → Bool
  | .threw => true
  | .nonList => true
  | .list [] => true
  | .list (_ :: _) => false

lemma collectAndResolve_failure (p : ParserInstance) (resolver : Resolver)
    (tokens : List Token) (startIndex l : Nat) (scope : Option Scope)
    (hlast : (nounWords p tokens l).getLastD "" ≠ "")
    (hfail : resolverFails (resolver ((nounWords p tokens l).getLastD "")
      ((nounWords p tokens l).dropLast) (scope.getD emptyScope)) = true) :
    collectAndResolve p resolver tokens startIndex l scope =
      ⟨none, l + (nounSpan p tokens l).length - startIndex,
       some (.unknownNoun ((nounWords p tokens l).getLastD "") (tokenStartAt tokens startIndex))⟩ := by
  have hu : (nounWords p tokens l).isEmpty = false := by
    cases h : nounWords p tokens l with
    | nil => exact absurd (by rw [h]; rfl) hlast
    | cons a t => rfl
  simp only [List.getLastD_eq_getLast?] at hlast hfail ⊢
  rcases hres : resolver ((nounWords p tokens l).getLast?.getD "")
      ((nounWords p tokens l).dropLast) (scope.getD emptyScope) with _ | _ | es
  · simp [collectAndResolve, hu, hlast, hres]
  · simp [collectAndResolve, hu, hlast, hres]
  · cases es with
    | nil => simp [collectAndResolve, hu, hlast, hres]
    | cons c1 cs =>
      rw [hres] at hfail
      exact absurd hfail (by simp [resolverFails])

/-- Claim C2: whenever the noun-phrase resolver invokes the external callback
(a nonempty noun phrase that is not the pronoun) and the callback throws,
returns a non-list value, or returns an empty list, the result is
`UnknownNoun` carrying the parsed noun and the start position of the
phrase's first token; and the exception is never propagated — within the
length limit `parse` always returns a result for every resolver. -/
theorem resolver_failure_absorbed :
    (∀ (p : ParserInstance) (resolver : Resolver) (m : Option EntityRef) (tokens : List Token)
        (startIndex : Nat) (scope : Option Scope),
      (∀ w, tokens[skipArticles p tokens startIndex]? = some w → w.value ≠ "it") →
      (nounWords p tokens (skipArticles p tokens startIndex)).getLastD "" ≠ "" →
      resolverFails (resolver
        ((nounWords p tokens (skipArticles p tokens startIndex)).getLastD "")
        ((nounWords p tokens (skipArticles p tokens startIndex)).dropLast)
        (scope.getD emptyScope)) = true →
        parseEntity p resolver m tokens startIndex scope =
          ⟨none,
           skipArticles p tokens startIndex +
             (nounSpan p tokens (skipArticles p tokens startIndex)).length - startIndex,
           some (.unknownNoun
             ((nounWords p tokens (skipArticles p tokens startIndex)).getLastD "")
             (tokenStartAt tokens startIndex))⟩)
    ∧ (∀ (resolver : Resolver) (p : ParserInstance) (input : String) (opts : Option ParseOptions),
        input.length ≤ maxInputLength → ∃ r, (parse resolver p input opts).1 = .ok r) := by
  constructor
  · intro p resolver m tokens startIndex scope hnotit hlast hfail
    cases htok : tokens[skipArticles p tokens startIndex]? with
    | none =>
      rw [show parseEntity p resolver m tokens startIndex scope =
          collectAndResolve p resolver tokens startIndex
            (skipArticles p tokens startIndex) scope from by
        simp [parseEntity, htok]]
      exact collectAndResolve_failure p resolver tokens startIndex _ scope hlast hfail
    | some w =>
      rw [show parseEntity p resolver m tokens startIndex scope =
          collectAndResolve p resolver tokens startIndex
            (skipArticles p tokens startIndex) scope from by
        simp [parseEntity, htok, hnotit w htok]]
      exact collectAndResolve_failure p resolver tokens startIndex _ scope hlast hfail
  · intro resolver p input opts h
    rw [parse_inbounds resolver p opts (by omega)]
    exact ⟨_, rfl⟩

/-- Witness for C2: a throwing resolver on `get the lamp` is absorbed into
`UnknownNoun "lamp"` at the start of the noun phrase (position 4, the
article), and parse still returns a result. -/
theorem resolver_failure_absorbed_witness :
    parseEntity pDefault resolverThrows none (tokenize "get the lamp") 1 none =
      ⟨none, 2, some (.unknownNoun "lamp" 4)⟩
    ∧ ∃ r, (parse resolverThrows pDefault "get lamp" none).1 = .ok r := by
  constructor
  · have h := resolver_failure_absorbed.1 pDefault resolverThrows none
      (tokenize "get the lamp") 1 none
      (by
        intro w hw
        have h1 : (some (⟨.word, "lamp", "lamp", 8, 12⟩ : Token) : Option Token) = some w := by
          rw [← hw]; decide
        cases Option.some.inj h1
        decide)
      (by decide) (by decide)
    rw [h]
    decide
  · exact resolver_failure_absorbed.2 resolverThrows pDefault "get lamp" none (by decide)

/-- A runtime vocabulary addition: `addVerb` or `addDirection`. -/
inductive VocabOp where
  | verb (d : VerbDefinition)
  | dir (d : DirectionDefinition)

def applyVocabOp (p : ParserInstance) : VocabOp → ParserInstance
  | .verb d => { p with vocabulary := addVerb p.vocabulary d }
  | .dir d => { p with vocabulary := addDirection p.vocabulary d }

def applyVocabOps (p : ParserInstance) (ops : List VocabOp) : ParserInstance :=
  ops.foldl applyVocabOp p

/-- A store of parser instances indexed by identity: in the bundle the
deep-frozen default vocabulary and the fresh arrays built by
`buildVocabulary` make distinct instances own disjoint vocabulary storage,
so `addVerb`/`addDirection` on one instance are a pure update of that
instance alone. -/
def ParserStore : Type := Nat → Option ParserInstance

def storeApplyOps (σ : ParserStore) (i : Nat) (ops : List VocabOp) : ParserStore :=
  fun j => if j = i then (σ j).map (fun p => applyVocabOps p ops) else σ j

lemma applyVocabOps_preserves (ops : List VocabOp) : ∀ p : ParserInstance,
    (applyVocabOps p ops).lastReferent = p.lastReferent ∧
    (applyVocabOps p ops).lastScope = p.lastScope ∧
    (applyVocabOps p ops).partialMatch = p.partialMatch ∧
    (applyVocabOps p ops).minPartialLength = p.minPartialLength := by
  induction ops with
  | nil => intro p; exact ⟨rfl, rfl, rfl, rfl⟩
  | cons op rest ih =>
    intro p
    have h := ih (applyVocabOp p op)
    cases op with
    | verb d => exact h
    | dir d => exact h

/-- Claim C3: a sequence of `addVerb`/`addDirection` calls on one instance
changes only that instance: every other instance of the store, whether
created before or after, is unchanged, and so is its matching behaviour
(`findVerb`, `findDirection`, `isArticle`, `isPreposition`); on the updated
instance itself everything but the vocabulary (pronoun state, matching
options) is untouched.  The built-in default vocabulary is a frozen
constant, never mutated. -/
theorem vocabulary_additions_isolated :
    ∀ (σ : ParserStore) (i : Nat) (ops : List VocabOp) (j : Nat), j ≠ i →
      storeApplyOps σ i ops j = σ j
      ∧ (∀ w, (storeApplyOps σ i ops j).map (fun q => findVerb q w) =
          (σ j).map (fun q => findVerb q w))
      ∧ (∀ w, (storeApplyOps σ i ops j).map (fun q => findDirection q.vocabulary w) =
          (σ j).map (fun q => findDirection q.vocabulary w))
      ∧ (∀ w, (storeApplyOps σ i ops j).map (fun q => isArticle q w) =
          (σ j).map (fun q => isArticle q w))
      ∧ (∀ w, (storeApplyOps σ i ops j).map (fun q => isPreposition q w) =
          (σ j).map (fun q => isPreposition q w))
      ∧ (∀ p : ParserInstance,
          (applyVocabOps p ops).lastReferent = p.lastReferent ∧
          (applyVocabOps p ops).lastScope = p.lastScope ∧
          (applyVocabOps p ops).partialMatch = p.partialMatch ∧
          (applyVocabOps p ops).minPartialLength = p.minPartialLength) := by
  intro σ i ops j hji
  have hsame : storeApplyOps σ i ops j = σ j := by
    simp [storeApplyOps, hji]
  exact ⟨hsame, fun w => by rw [hsame], fun w => by rw [hsame], fun w => by rw [hsame],
    fun w => by rw [hsame], applyVocabOps_preserves ops⟩

def twoInstanceStore : ParserStore :=
  fun j => if j = 0 then some (defaultInstanceWith true 3 none RoomVal.null)
    else if j = 1 then some (defaultInstanceWith true 3 none RoomVal.null) else none

/-- Witness for C3: adding a verb to instance 0 of a two-instance store
leaves instance 1 exactly as it was. -/
theorem vocabulary_additions_isolated_witness :
    storeApplyOps twoInstanceStore 0 [.verb ⟨"CAST", ["cast"], .subject⟩] 1 =
      twoInstanceStore 1 :=
  (vocabulary_additions_isolated twoInstanceStore 0 [.verb ⟨"CAST", ["cast"], .subject⟩] 1
    (by decide)).1

/-- `a` is the first element of `l` satisfying `q`, in list order. -/
def FirstSuchThat {α : Type} (q : α → Bool) (l : List α) (a : α) : Prop :=
  q a = true ∧ ∃ l₁ l₂, l = l₁ ++ a :: l₂ ∧ ∀ x ∈ l₁, q x = false

lemma find?_iff_first {α : Type} (q : α → Bool) (l : List α) (a : α) :
    l.find? q = some a ↔ FirstSuchThat q l a := by
  rw [List.find?_eq_some]
  unfold FirstSuchThat
  constructor
  · rintro ⟨hq, as, bs, rfl, hall⟩
    exact ⟨hq, as, bs, rfl, fun x hx => by simpa using hall x hx⟩
  · rintro ⟨hq, as, bs, rfl, hall⟩
    exact ⟨hq, as, bs, rfl, fun x hx => by simp [hall x hx]⟩

lemma firstSuchThat_mem {α : Type} {q : α → Bool} {l : List α} {a : α}
    (h : FirstSuchThat q l a) : a ∈ l ∧ q a = true := by
  obtain ⟨hq, l₁, l₂, rfl, _⟩ := h
  exact ⟨List.mem_append_right _ (List.mem_cons_self _ _), hq⟩

/-- Claim C6: `findVerb` returns the first verb in vocabulary order with an
exact synonym match; failing that, and only when partial matching is on and
the word is at least `minPartialLength` (default 3) long, the first verb in
vocabulary order any of whose synonyms has the word as a prefix; otherwise
no verb.  `findDirection` matches aliases exactly only, never by prefix. -/
theorem verb_direction_matching_spec :
    (∀ (p : ParserInstance) (word : String) (v : VerbDefinition),
      findVerb p word = some v ↔
        (FirstSuchThat (fun u => u.synonyms.contains word) p.vocabulary.verbs v
         ∨ ((∀ u ∈ p.vocabulary.verbs, u.synonyms.contains word = false)
            ∧ p.partialMatch = true ∧ p.minPartialLength ≤ word.length
            ∧ FirstSuchThat (fun u => u.synonyms.any (fun syn => strStartsWith syn word))
                p.vocabulary.verbs v)))
    ∧ (∀ (p : ParserInstance) (word : String),
        (p.partialMatch = false ∨ word.length < p.minPartialLength) →
        (∀ u ∈ p.vocabulary.verbs, u.synonyms.contains word = false) →
        findVerb p word = none)
    ∧ (∀ (voc : Vocabulary) (word c : String),
        findDirection voc word = some c ↔
          ∃ dd, FirstSuchThat (fun d => d.aliases.contains word) voc.directions dd ∧
            c = dd.canonical)
    ∧ ((createParser ⟨none, none, none⟩).minPartialLength = 3
       ∧ (createParser ⟨none, none, none⟩).partialMatch = true) := by
  refine ⟨?_, ?_, ?_, rfl, rfl⟩
  · intro p word v
    unfold findVerb
    cases hex : p.vocabulary.verbs.find? (fun u => u.synonyms.contains word) with
    | some v0 =>
      have hfirst := (find?_iff_first _ _ v0).mp hex
      constructor
      · intro h
        cases Option.some.inj h
        exact Or.inl hfirst
      · rintro (h | ⟨hall, _, _, _⟩)
        · show (some v0 : Option VerbDefinition) = some v
          rw [← hex]
          exact (find?_iff_first _ _ v).mpr h
        · obtain ⟨hmem, hq⟩ := firstSuchThat_mem hfirst
          rw [hall v0 hmem] at hq
          exact absurd hq (by simp)
    | none =>
      have hall : ∀ u ∈ p.vocabulary.verbs, u.synonyms.contains word = false := by
        intro u hu
        have h := List.find?_eq_none.mp hex u hu
        simpa using h
      by_cases hcond : p.partialMatch && decide (p.minPartialLength ≤ word.length)
      · rw [if_pos hcond, find?_iff_first]
        rw [Bool.and_eq_true] at hcond
        obtain ⟨h1, h2⟩ := hcond
        constructor
        · intro h
          exact Or.inr ⟨hall, h1, by simpa using h2, h⟩
        · rintro (h | ⟨_, _, _, h⟩)
          · obtain ⟨hmem, hq⟩ := firstSuchThat_mem h
            rw [hall v hmem] at hq
            exact absurd hq (by simp)
          · exact h
      · rw [if_neg hcond]
        constructor
        · intro h
          exact absurd h (by simp)
        · rintro (h | ⟨_, h1, h2, _⟩)
          · obtain ⟨hmem, hq⟩ := firstSuchThat_mem h
            rw [hall v hmem] at hq
            exact absurd hq (by simp)
          · exact absurd (by rw [h1]; simpa using h2) hcond
  · intro p word hgate hall
    have hnone : p.vocabulary.verbs.find? (fun u => u.synonyms.contains word) = none :=
      List.find?_eq_none.mpr (fun x hx => by rw [hall x hx]; simp)
    have hgateF : (p.partialMatch && decide (p.minPartialLength ≤ word.length)) = false := by
      rcases hgate with h | h
      · rw [h]
        rfl
      · have hn : ¬ p.minPartialLength ≤ word.length := Nat.not_le.mpr h
        simp [hn]
    simp only [findVerb]
    rw [hnone]
    simp [hgateF]
  · intro voc word c
    unfold findDirection
    rw [Option.map_eq_some']
    constructor
    · rintro ⟨dd, hdd, hc⟩
      exact ⟨dd, (find?_iff_first _ _ dd).mp hdd, hc.symm⟩
    · rintro ⟨dd, hdd, hc⟩
      exact ⟨dd, (find?_iff_first _ _ dd).mpr hdd, hc.symm⟩

/-- Witness for C6: with partial matching off, a word that is no exact
synonym of any verb finds no verb. -/
theorem verb_direction_matching_spec_witness :
    findVerb (defaultInstanceWith false 3 none RoomVal.null) "zzz" = none :=
  verb_direction_matching_spec.2.1 (defaultInstanceWith false 3 none RoomVal.null) "zzz"
    (Or.inl rfl) (by decide)

/-- Claim C7: for a verb of pattern `subject`, once the subject noun phrase
has parsed successfully (consuming `k` tokens after the verb): if the token
immediately following the consumed span is a preposition, an object noun
phrase is additionally parsed after it and both `preposition` and `object`
are populated on the command; a preposition followed by no object noun
phrase yields a `ParseError`; and with no following preposition the command
carries only the subject. -/
theorem subject_pattern_trailing_prep_object (p : ParserInstance) (resolver : Resolver)
    (m : Option EntityRef) (tokens : List Token) (scope : Option Scope) (vc raw : String)
    (e : EntityRef) (k : Nat)
    (hlen : 2 ≤ tokens.length)
    (hsubj : parseEntity p resolver m tokens 1 scope = ⟨some e, k, none⟩) :
    ((∀ s, tokens[1 + k]? = some s → isPreposition p s.value = false) →
      parseSubjectPattern p resolver m tokens scope vc raw =
        (.command ⟨vc, some e, none, none, none, none, raw⟩, some e))
    ∧ (∀ s, tokens[1 + k]? = some s → isPreposition p s.value = true →
        ((tokens.length ≤ 1 + k + 1 →
          parseSubjectPattern p resolver m tokens scope vc raw =
            (.parseError (expectedTargetMsg s.value) s.stop, m))
        ∧ (∀ (obj : EntityRef) (k2 : Nat),
            parseEntity p resolver m tokens (1 + k + 1) scope = ⟨some obj, k2, none⟩ →
            ¬ tokens.length ≤ 1 + k + 1 →
            parseSubjectPattern p resolver m tokens scope vc raw =
              (.command ⟨vc, some e, some obj, some s.value, none, none, raw⟩, some e))
        ∧ (∀ k2 : Nat,
            parseEntity p resolver m tokens (1 + k + 1) scope = ⟨none, k2, none⟩ →
            ¬ tokens.length ≤ 1 + k + 1 →
            parseSubjectPattern p resolver m tokens scope vc raw =
              (.parseError (expectedTargetMsg s.value)
                (tokenStartAt tokens (1 + k + 1)), m)))) := by
  have hlt : ¬ tokens.length < 2 := by omega
  constructor
  · intro hnoprep
    cases hnext : tokens[1 + k]? with
    | none => simp [parseSubjectPattern, hlt, hsubj, hnext]
    | some s => simp [parseSubjectPattern, hlt, hsubj, hnext, hnoprep s hnext]
  · intro s hnext hprep
    refine ⟨?_, ?_, ?_⟩
    · intro hend
      simp [parseSubjectPattern, hlt, hsubj, hnext, hprep, hend]
    · intro obj k2 hobj hend
      simp [parseSubjectPattern, hlt, hsubj, hnext, hprep, hend, hobj]
    · intro k2 hobj hend
      simp [parseSubjectPattern, hlt, hsubj, hnext, hprep, hend, hobj]

/-- Witness for C7: `unlock door with key` populates subject, preposition and
object even though UNLOCK is declared `subject`; `unlock door with` is a
parse error; `unlock door` carries only the subject. -/
theorem subject_pattern_trailing_prep_object_witness :
    parseSubjectPattern pDefault resolverEcho none (tokenize "unlock door with key") none
      "UNLOCK" "unlock door with key" =
      (.command ⟨"UNLOCK", some ⟨"door", "door", []⟩, some ⟨"key", "key", []⟩, some "with",
        none, none, "unlock door with key"⟩, some ⟨"door", "door", []⟩)
    ∧ parseSubjectPattern pDefault resolverEcho none (tokenize "unlock door with") none
      "UNLOCK" "unlock door with" =
      (.parseError (expectedTargetMsg "with") 16, none)
    ∧ parseSubjectPattern pDefault resolverEcho none (tokenize "unlock door") none
      "UNLOCK" "unlock door" =
      (.command ⟨"UNLOCK", some ⟨"door", "door", []⟩, none, none, none, none,
        "unlock door"⟩, some ⟨"door", "door", []⟩) := by
  refine ⟨?_, ?_, ?_⟩
  · have h := (subject_pattern_trailing_prep_object pDefault resolverEcho none
      (tokenize "unlock door with key") none "UNLOCK" "unlock door with key"
      ⟨"door", "door", []⟩ 1 (by decide) (by decide)).2
      ⟨.word, "with", "with", 12, 16⟩ (by decide) (by decide)
    exact h.2.1 ⟨"key", "key", []⟩ 1 (by decide) (by decide)
  · have h := (subject_pattern_trailing_prep_object pDefault resolverEcho none
      (tokenize "unlock door with") none "UNLOCK" "unlock door with"
      ⟨"door", "door", []⟩ 1 (by decide) (by decide)).2
      ⟨.word, "with", "with", 12, 16⟩ (by decide) (by decide)
    exact h.1 (by decide)
  · exact (subject_pattern_trailing_prep_object pDefault resolverEcho none
      (tokenize "unlock door") none "UNLOCK" "unlock door"
      ⟨"door", "door", []⟩ 1 (by decide) (by decide)).1
      (by
        intro s hs
        rw [show (tokenize "unlock door")[1 + 1]? = (none : Option Token) from by decide] at hs
        exact Option.noConfusion hs)

/-- Forgetting a token's type (setting it to `word`): the observation that no
post-tokenization lookup reads the `type` field is stated as invariance of
the dispatcher under this map. -/
def retype (t : Token) : Token := { t with type := TokenType.word }

@[simp] lemma retype_value (t : Token) : (retype t).value = t.value := rfl

@[simp] lemma retype_original (t : Token) : (retype t).original = t.original := rfl

@[simp] lemma retype_start (t : Token) : (retype t).start = t.start := rfl

@[simp] lemma retype_stop (t : Token) : (retype t).stop = t.stop := rfl

lemma skipArticles_retype (p : ParserInstance) (tokens : List Token) (i : Nat) :
    skipArticles p (tokens.map retype) i = skipArticles p tokens i := by
  unfold skipArticles
  rw [← List.map_drop, List.takeWhile_map, List.length_map]
  rfl

lemma nounSpan_retype (p : ParserInstance) (tokens : List Token) (l : Nat) :
    nounSpan p (tokens.map retype) l = (nounSpan p tokens l).map retype := by
  unfold nounSpan
  rw [← List.map_drop, List.takeWhile_map]
  rfl

lemma nounWords_retype (p : ParserInstance) (tokens : List Token) (l : Nat) :
    nounWords p (tokens.map retype) l = nounWords p tokens l := by
  unfold nounWords
  rw [nounSpan_retype, List.filter_map, List.map_map]
  rfl

lemma tokenStartAt_retype (tokens : List Token) (i : Nat) :
    tokenStartAt (tokens.map retype) i = tokenStartAt tokens i := by
  unfold tokenStartAt
  rw [List.getElem?_map]
  cases tokens[i]? <;> rfl

lemma lastTokenEnd_retype (tokens : List Token) :
    lastTokenEnd (tokens.map retype) = lastTokenEnd tokens := by
  unfold lastTokenEnd
  rw [List.getLast?_map]
  cases tokens.getLast? <;> rfl

lemma collectAndResolve_retype (p : ParserInstance) (resolver : Resolver)
    (tokens : List Token) (startIndex l : Nat) (scope : Option Scope) :
    collectAndResolve p resolver (tokens.map retype) startIndex l scope =
      collectAndResolve p resolver tokens startIndex l scope := by
  simp only [collectAndResolve, nounWords_retype, nounSpan_retype, List.length_map,
    tokenStartAt_retype]

lemma parseEntity_retype (p : ParserInstance) (resolver : Resolver) (m : Option EntityRef)
    (tokens : List Token) (i : Nat) (scope : Option Scope) :
    parseEntity p resolver m (tokens.map retype) i scope =
      parseEntity p resolver m tokens i scope := by
  simp only [parseEntity, skipArticles_retype, List.getElem?_map]
  cases tokens[skipArticles p tokens i]? with
  | none => simp [collectAndResolve_retype]
  | some w =>
    simp only [Option.map_some']
    by_cases hit : w.value = "it"
    · simp [retype_value, hit]
    · simp [retype_value, hit, collectAndResolve_retype]

lemma parseDirectionPattern_retype (p : ParserInstance) (m : Option EntityRef)
    (tokens : List Token) (vc raw : String) :
    parseDirectionPattern p m (tokens.map retype) vc raw =
      parseDirectionPattern p m tokens vc raw := by
  simp only [parseDirectionPattern, List.length_map, lastTokenEnd_retype, List.getElem?_map]
  cases tokens[1]? with
  | none => rfl
  | some c => simp

lemma parseTextPattern_retype (m : Option EntityRef)
    (tokens : List Token) (vc raw : String) :
    parseTextPattern m (tokens.map retype) vc raw = parseTextPattern m tokens vc raw := by
  simp only [parseTextPattern, List.length_map, lastTokenEnd_retype, List.getElem?_map]
  cases tokens[1]? with
  | none => rfl
  | some c => simp

lemma parseSubjectPattern_retype (p : ParserInstance) (resolver : Resolver)
    (m : Option EntityRef) (tokens : List Token) (scope : Option Scope) (vc raw : String) :
    parseSubjectPattern p resolver m (tokens.map retype) scope vc raw =
      parseSubjectPattern p resolver m tokens scope vc raw := by
  by_cases hlen : tokens.length < 2
  · have hlen' : (tokens.map retype).length < 2 := by simpa using hlen
    simp [parseSubjectPattern, hlen, hlen', lastTokenEnd_retype]
  · have hlen' : ¬ (tokens.map retype).length < 2 := by simpa using hlen
    rcases hpe : parseEntity p resolver m tokens 1 scope with ⟨ent, k, err⟩
    have hpe' : parseEntity p resolver m (tokens.map retype) 1 scope = ⟨ent, k, err⟩ := by
      rw [parseEntity_retype]
      exact hpe
    cases err with
    | some e0 => simp [parseSubjectPattern, hlen, hlen', hpe, hpe']
    | none =>
      cases ent with
      | none => simp [parseSubjectPattern, hlen, hlen', hpe, hpe', tokenStartAt_retype]
      | some e =>
        cases hnext : tokens[1 + k]? with
        | none =>
          have hnext' : (tokens.map retype)[1 + k]? = none := by
            rw [List.getElem?_map, hnext]
            rfl
          simp [parseSubjectPattern, hlen, hlen', hpe, hpe', hnext, hnext']
        | some s =>
          have hnext' : (tokens.map retype)[1 + k]? = some (retype s) := by
            rw [List.getElem?_map, hnext]
            rfl
          by_cases hprep : isPreposition p s.value
          · by_cases hend : tokens.length ≤ 1 + k + 1
            · have hend' : (tokens.map retype).length ≤ 1 + k + 1 := by simpa using hend
              simp [parseSubjectPattern, hlen, hlen', hpe, hpe', hnext, hnext', hprep,
                hend, hend']
            · have hend' : ¬ (tokens.map retype).length ≤ 1 + k + 1 := by simpa using hend
              rcases hpe2 : parseEntity p resolver m tokens (1 + k + 1) scope with
                ⟨ent2, k2, err2⟩
              have hpe2' : parseEntity p resolver m (tokens.map retype) (1 + k + 1) scope =
                  ⟨ent2, k2, err2⟩ := by
                rw [parseEntity_retype]
                exact hpe2
              cases err2 with
              | some e2 =>
                simp [parseSubjectPattern, hlen, hlen', hpe, hpe', hnext, hnext', hprep,
                  hend, hend', hpe2, hpe2']
              | none =>
                cases ent2 with
                | none =>
                  simp [parseSubjectPattern, hlen, hlen', hpe, hpe', hnext, hnext', hprep,
                    hend, hend', hpe2, hpe2', tokenStartAt_retype]
                | some obj =>
                  simp [parseSubjectPattern, hlen, hlen', hpe, hpe', hnext, hnext', hprep,
                    hend, hend', hpe2, hpe2']
          · simp [parseSubjectPattern, hlen, hlen', hpe, hpe', hnext, hnext', hprep]

lemma parseSubjectObjectPattern_retype (p : ParserInstance) (resolver : Resolver)
    (m : Option EntityRef) (tokens : List Token) (scope : Option Scope) (vc raw : String) :
    parseSubjectObjectPattern p resolver m (tokens.map retype) scope vc raw =
      parseSubjectObjectPattern p resolver m tokens scope vc raw := by
  by_cases hlen : tokens.length < 2
  · have hlen' : (tokens.map retype).length < 2 := by simpa using hlen
    simp [parseSubjectObjectPattern, hlen, hlen', lastTokenEnd_retype]
  · have hlen' : ¬ (tokens.map retype).length < 2 := by simpa using hlen
    rcases hpe : parseEntity p resolver m tokens 1 scope with ⟨ent, k, err⟩
    have hpe' : parseEntity p resolver m (tokens.map retype) 1 scope = ⟨ent, k, err⟩ := by
      rw [parseEntity_retype]
      exact hpe
    cases err with
    | some e0 => simp [parseSubjectObjectPattern, hlen, hlen', hpe, hpe']
    | none =>
      cases ent with
      | none => simp [parseSubjectObjectPattern, hlen, hlen', hpe, hpe', tokenStartAt_retype]
      | some subj =>
        by_cases hnl : tokens.length ≤ 1 + k
        · have hnl' : (tokens.map retype).length ≤ 1 + k := by simpa using hnl
          simp [parseSubjectObjectPattern, hlen, hlen', hpe, hpe', hnl, hnl',
            lastTokenEnd_retype]
        · have hnl' : ¬ (tokens.map retype).length ≤ 1 + k := by simpa using hnl
          cases hnext : tokens[1 + k]? with
          | none =>
            have hnext' : (tokens.map retype)[1 + k]? = none := by
              rw [List.getElem?_map, hnext]
              rfl
            simp [parseSubjectObjectPattern, hlen, hlen', hpe, hpe', hnl, hnl', hnext,
              hnext', lastTokenEnd_retype]
          | some s =>
            have hnext' : (tokens.map retype)[1 + k]? = some (retype s) := by
              rw [List.getElem?_map, hnext]
              rfl
            by_cases hprep : isPreposition p s.value
            · by_cases hend : tokens.length ≤ 1 + k + 1
              · have hend' : (tokens.map retype).length ≤ 1 + k + 1 := by simpa using hend
                simp [parseSubjectObjectPattern, hlen, hlen', hpe, hpe', hnl, hnl', hnext,
                  hnext', hprep, hend, hend']
              · have hend' : ¬ (tokens.map retype).length ≤ 1 + k + 1 := by simpa using hend
                rcases hpe2 : parseEntity p resolver m tokens (1 + k + 1) scope with
                  ⟨ent2, k2, err2⟩
                have hpe2' : parseEntity p resolver m (tokens.map retype) (1 + k + 1) scope =
                    ⟨ent2, k2, err2⟩ := by
                  rw [parseEntity_retype]
                  exact hpe2
                cases err2 with
                | some e2 =>
                  simp [parseSubjectObjectPattern, hlen, hlen', hpe, hpe', hnl, hnl', hnext,
                    hnext', hprep, hend, hend', hpe2, hpe2']
                | none =>
                  cases ent2 with
                  | none =>
                    simp [parseSubjectObjectPattern, hlen, hlen', hpe, hpe', hnl, hnl',
                      hnext, hnext', hprep, hend, hend', hpe2, hpe2', tokenStartAt_retype]
                  | some obj =>
                    simp [parseSubjectObjectPattern, hlen, hlen', hpe, hpe', hnl, hnl',
                      hnext, hnext', hprep, hend, hend', hpe2, hpe2']
            · simp [parseSubjectObjectPattern, hlen, hlen', hpe, hpe', hnl, hnl', hnext,
                hnext', hprep]

lemma dispatch_retype (p : ParserInstance) (resolver : Resolver) (m : Option EntityRef)
    (raw : String) (tokens : List Token) (scope : Option Scope) :
    dispatch p resolver m raw (tokens.map retype) scope =
      dispatch p resolver m raw tokens scope := by
  cases tokens with
  | nil => rfl
  | cons tok0 rest =>
    by_cases hdir : strTruthy (findDirection p.vocabulary tok0.value)
    · have h1 : dispatch p resolver m raw ((tok0 :: rest).map retype) scope =
          (.command ⟨"GO", none, none, none, findDirection p.vocabulary tok0.value,
            none, raw⟩, m) := by
        simp [dispatch, hdir]
      have h2 : dispatch p resolver m raw (tok0 :: rest) scope =
          (.command ⟨"GO", none, none, none, findDirection p.vocabulary tok0.value,
            none, raw⟩, m) := by
        simp [dispatch, hdir]
      rw [h1, h2]
    · cases hfv : findVerb p tok0.value with
      | none =>
        have h1 : dispatch p resolver m raw ((tok0 :: rest).map retype) scope =
            (.unknownVerb tok0.value, m) := by
          simp [dispatch, hdir, hfv]
        have h2 : dispatch p resolver m raw (tok0 :: rest) scope =
            (.unknownVerb tok0.value, m) := by
          simp [dispatch, hdir, hfv]
        rw [h1, h2]
      | some verb =>
        cases hpat : verb.pattern with
        | none =>
          have h1 : dispatch p resolver m raw ((tok0 :: rest).map retype) scope =
              (.command ⟨verb.canonical, none, none, none, none, none, raw⟩, m) := by
            simp [dispatch, hdir, hfv, hpat]
          have h2 : dispatch p resolver m raw (tok0 :: rest) scope =
              (.command ⟨verb.canonical, none, none, none, none, none, raw⟩, m) := by
            simp [dispatch, hdir, hfv, hpat]
          rw [h1, h2]
        | direction =>
          have h1 : dispatch p resolver m raw ((tok0 :: rest).map retype) scope =
              parseDirectionPattern p m ((tok0 :: rest).map retype) verb.canonical raw := by
            simp [dispatch, hdir, hfv, hpat]
          have h2 : dispatch p resolver m raw (tok0 :: rest) scope =
              parseDirectionPattern p m (tok0 :: rest) verb.canonical raw := by
            simp [dispatch, hdir, hfv, hpat]
          rw [h1, h2, parseDirectionPattern_retype]
        | text =>
          have h1 : dispatch p resolver m raw ((tok0 :: rest).map retype) scope =
              parseTextPattern m ((tok0 :: rest).map retype) verb.canonical raw := by
            simp [dispatch, hdir, hfv, hpat]
          have h2 : dispatch p resolver m raw (tok0 :: rest) scope =
              parseTextPattern m (tok0 :: rest) verb.canonical raw := by
            simp [dispatch, hdir, hfv, hpat]
          rw [h1, h2, parseTextPattern_retype]
        | subject =>
          have h1 : dispatch p resolver m raw ((tok0 :: rest).map retype) scope =
              parseSubjectPattern p resolver m ((tok0 :: rest).map retype) scope
                verb.canonical raw := by
            simp [dispatch, hdir, hfv, hpat]
          have h2 : dispatch p resolver m raw (tok0 :: rest) scope =
              parseSubjectPattern p resolver m (tok0 :: rest) scope verb.canonical raw := by
            simp [dispatch, hdir, hfv, hpat]
          rw [h1, h2, parseSubjectPattern_retype]
        | subject_object =>
          have h1 : dispatch p resolver m raw ((tok0 :: rest).map retype) scope =
              parseSubjectObjectPattern p resolver m ((tok0 :: rest).map retype) scope
                verb.canonical raw := by
            simp [dispatch, hdir, hfv, hpat]
          have h2 : dispatch p resolver m raw (tok0 :: rest) scope =
              parseSubjectObjectPattern p resolver m (tok0 :: rest) scope
                verb.canonical raw := by
            simp [dispatch, hdir, hfv, hpat]
          rw [h1, h2, parseSubjectObjectPattern_retype]

/-- Claim C9: after tokenization, verb lookup, direction lookup,
article/preposition classification and noun-phrase word collection inspect
only each token's normalized value, never its type: the dispatcher and the
noun-phrase resolver are invariant under forgetting every token's type.  In
particular an input consisting solely of `north` in double quotes parses to
`Command (verb GO, direction NORTH)` on a default-vocabulary instance — with
the caveat that quoted values are not lowercased (`"North"` tokenizes to the
value `North`, where the bare word lowercases to `north`). -/
theorem token_type_never_inspected :
    (∀ (p : ParserInstance) (resolver : Resolver) (m : Option EntityRef) (raw : String)
        (tokens : List Token) (scope : Option Scope),
      dispatch p resolver m raw (tokens.map retype) scope =
        dispatch p resolver m raw tokens scope)
    ∧ (∀ (p : ParserInstance) (resolver : Resolver) (m : Option EntityRef)
        (tokens : List Token) (i : Nat) (scope : Option Scope),
      parseEntity p resolver m (tokens.map retype) i scope =
        parseEntity p resolver m tokens i scope)
    ∧ (∀ (resolver : Resolver) (pm : Bool) (mpl : Nat) (m : Option EntityRef) (ls : RoomVal),
      parse resolver (defaultInstanceWith pm mpl m ls) "\"north\"" none =
        (.ok (.command ⟨"GO", none, none, none, some "NORTH", none, "\"north\""⟩),
         defaultInstanceWith pm mpl m ls))
    ∧ ((tokenize "\"North\"").map (fun t => t.value) = ["North"]
       ∧ (tokenize "North").map (fun t => t.value) = ["north"]) := by
  refine ⟨dispatch_retype, parseEntity_retype, ?_, by decide, by decide⟩
  intro resolver pm mpl m ls
  rfl

end MEParser
